import Mathlib

/-!
# Verification of the rust-mini-redis core against its specification

Shallow embedding of the repository's source files:

* `src/frame.rs`  — the RESP wire codec (`Frame::check`, `Frame::parse`);
* `src/parse.rs`  — the `Parse` cursor over a decoded array frame;
* `src/cmd.rs`, `src/cmd/*.rs` — command parsing and dispatch;
* `src/db.rs`     — the shared store (`Db::set`, `Shared::purge_expired_keys`, …).

Bytes are modelled as `List Nat` (each element a byte value `< 256`); Rust
`u64` values are modelled as `Nat` (the decimal reader enforces the `2^64`
bound exactly where the `atoi` crate does); `Instant` and `Duration` are
modelled as `Nat` milliseconds.  Fallible Rust code returns `Except`/`Option`,
and a Rust `panic!`/`unimplemented!` is modelled by an explicit `panic`
constructor (for `Frame::parse`) or by `Option.none` (for `Db::set`), so that
aborting executions are first-class values of the model.
-/

namespace MiniRedis

/-! ## UTF-8 (used by `String::from_utf8` in frame.rs and `str::from_utf8`
in parse.rs).  The decoder accepts exactly the byte sequences Rust's
standard validator accepts: no overlongs, no surrogates, max U+10FFFF. -/

def utf8Cont (b : Nat) : Bool := 128 ≤ b && b ≤ 191

/-- Decode a byte list as UTF-8 scalar values; `none` on invalid input
(mirrors `String::from_utf8` failing). -/
def utf8DecodeChars : List Nat → Option (List Char)
  | [] => some []
  | b :: rest =>
    if b ≤ 127 then
      (utf8DecodeChars rest).map (fun cs => Char.ofNat b :: cs)
    else if 194 ≤ b && b ≤ 223 then
      match rest with
      | c1 :: r =>
        if utf8Cont c1 then
          (utf8DecodeChars r).map (fun cs => Char.ofNat ((b - 192) * 64 + (c1 - 128)) :: cs)
        else none
      | _ => none
    else if b = 224 then
      match rest with
      | c1 :: c2 :: r =>
        if (160 ≤ c1 && c1 ≤ 191) && utf8Cont c2 then
          (utf8DecodeChars r).map
            (fun cs => Char.ofNat ((b - 224) * 4096 + (c1 - 128) * 64 + (c2 - 128)) :: cs)
        else none
      | _ => none
    else if 225 ≤ b && b ≤ 236 then
      match rest with
      | c1 :: c2 :: r =>
        if utf8Cont c1 && utf8Cont c2 then
          (utf8DecodeChars r).map
            (fun cs => Char.ofNat ((b - 224) * 4096 + (c1 - 128) * 64 + (c2 - 128)) :: cs)
        else none
      | _ => none
    else if b = 237 then
      match rest with
      | c1 :: c2 :: r =>
        if (128 ≤ c1 && c1 ≤ 159) && utf8Cont c2 then
          (utf8DecodeChars r).map
            (fun cs => Char.ofNat ((b - 224) * 4096 + (c1 - 128) * 64 + (c2 - 128)) :: cs)
        else none
      | _ => none
    else if 238 ≤ b && b ≤ 239 then
      match rest with
      | c1 :: c2 :: r =>
        if utf8Cont c1 && utf8Cont c2 then
          (utf8DecodeChars r).map
            (fun cs => Char.ofNat ((b - 224) * 4096 + (c1 - 128) * 64 + (c2 - 128)) :: cs)
        else none
      | _ => none
    else if b = 240 then
      match rest with
      | c1 :: c2 :: c3 :: r =>
        if (144 ≤ c1 && c1 ≤ 191) && (utf8Cont c2 && utf8Cont c3) then
          (utf8DecodeChars r).map (fun cs =>
            Char.ofNat ((b - 240) * 262144 + (c1 - 128) * 4096 + (c2 - 128) * 64 + (c3 - 128)) :: cs)
        else none
      | _ => none
    else if 241 ≤ b && b ≤ 243 then
      match rest with
      | c1 :: c2 :: c3 :: r =>
        if utf8Cont c1 && (utf8Cont c2 && utf8Cont c3) then
          (utf8DecodeChars r).map (fun cs =>
            Char.ofNat ((b - 240) * 262144 + (c1 - 128) * 4096 + (c2 - 128) * 64 + (c3 - 128)) :: cs)
        else none
      | _ => none
    else if b = 244 then
      match rest with
      | c1 :: c2 :: c3 :: r =>
        if (128 ≤ c1 && c1 ≤ 143) && (utf8Cont c2 && utf8Cont c3) then
          (utf8DecodeChars r).map (fun cs =>
            Char.ofNat ((b - 240) * 262144 + (c1 - 128) * 4096 + (c2 - 128) * 64 + (c3 - 128)) :: cs)
        else none
      | _ => none
    else none
  termination_by l => l.length
  decreasing_by all_goals simp_wf <;> omega

/-- `String::from_utf8` / `str::from_utf8`: a Rust `String` is a valid
UTF-8 byte sequence; we model it as the decoded `String`. -/
def bytesToString? (bs : List Nat) : Option String :=
  (utf8DecodeChars bs).map (fun cs => String.mk cs)

/-- Encode one scalar value as UTF-8 bytes (used for `String::into_bytes`
and `str::as_bytes`). -/
def utf8EncodeChar (c : Char) : List Nat :=
  let n := c.toNat
  if n ≤ 127 then [n]
  else if n ≤ 2047 then [192 + n / 64, 128 + n % 64]
  else if n ≤ 65535 then [224 + n / 4096, 128 + (n / 64) % 64, 128 + n % 64]
  else [240 + n / 262144, 128 + (n / 4096) % 64, 128 + (n / 64) % 64, 128 + n % 64]

/-- `String::into_bytes` / `str::as_bytes`. -/
def strBytes (s : String) : List Nat := s.data.flatMap utf8EncodeChar

/-! ## `atoi::atoi::<u64>` (used by `get_decimal` in frame.rs and
`next_int` in parse.rs).  It rejects the empty slice, any non-digit byte,
and values that overflow `u64`. -/

def isDigitByte (b : Nat) : Bool := 48 ≤ b && b ≤ 57

def digitsVal (l : List Nat) : Nat := l.foldl (fun acc b => acc * 10 + (b - 48)) 0

def atoiU64 (l : List Nat) : Option Nat :=
  if l.isEmpty then none
  else if l.all isDigitByte then
    if digitsVal l < 2 ^ 64 then some (digitsVal l) else none
  else none

/-! ## The `Frame` type (src/frame.rs).

`Simple`/`Error` carry a Rust `String` (valid UTF-8); `Bulk` carries raw
bytes; `Integer` is a `u64`. -/

inductive Frame where
  | simple (s : String)
  | error (s : String)
  | integer (n : Nat)
  | bulk (b : List Nat)
  | null
  | array (xs : List Frame)
  deriving Repr

/-- `FrameError` (src/frame.rs): `Incomplete`, or `Other(message)`
(every `Other` is a protocol error; we keep the message). -/
inductive FrameErr where
  | incomplete
  | other (msg : String)
  deriving Repr, DecidableEq

/-! ### Cursor helpers (src/frame.rs, bottom half).

A `Cursor<&[u8]>` is modelled as the full byte list `data` plus a
position `pos`. -/

/-- `peek_u8`: returns the byte at the current position without advancing. -/
def peekU8 (data : List Nat) (pos : Nat) : Except FrameErr Nat :=
  match data.get? pos with
  | some b => .ok b
  | none => .error .incomplete

/-- `get_u8`: returns the byte at the current position, advancing by one. -/
def getU8 (data : List Nat) (pos : Nat) : Except FrameErr (Nat × Nat) :=
  match data.get? pos with
  | some b => .ok (b, pos + 1)
  | none => .error .incomplete

/-- `skip(src, n)`: advances `n` positions if that many bytes remain. -/
def skip (data : List Nat) (pos n : Nat) : Except FrameErr Nat :=
  if data.length - pos < n then .error .incomplete else .ok (pos + n)

/-- Find the first index (relative to the start of `l`) at which a
`\r\n` pair begins; `none` if there is none.  This is the scan loop of
`get_line`. -/
def findCRLF : List Nat → Option Nat
  | [] => none
  | [_] => none
  | a :: b :: rest =>
    if a = 13 ∧ b = 10 then some 0 else (findCRLF (b :: rest)).map (· + 1)

/-- `get_line`: returns the bytes strictly before the first `\r\n` at or
after `pos`, and the position just past that `\r\n`. -/
def getLine (data : List Nat) (pos : Nat) : Except FrameErr (List Nat × Nat) :=
  match findCRLF (data.drop pos) with
  | some j => .ok ((data.drop pos).take j, pos + j + 2)
  | none => .error .incomplete

/-- `get_decimal`: `get_line` then `atoi::<u64>`. -/
def getDecimal (data : List Nat) (pos : Nat) : Except FrameErr (Nat × Nat) :=
  match getLine data pos with
  | .error e => .error e
  | .ok (line, p) =>
    match atoiU64 line with
    | some n => .ok (n, p)
    | none => .error (.other "protocol error; invalid frame format")

/-! ### `Frame::check` and `Frame::parse`.

Both functions recurse through nested arrays.  The Lean embeddings take a
fuel argument and return `none` when the fuel runs out; the top-level
wrappers `Frame.check` / `Frame.parse` pass `data.length + 1` fuel, and
`checkF_fuel_sufficient` / `parseF_fuel_sufficient` below prove that this
never runs out, so the wrappers are total embeddings of the Rust
functions. -/

inductive CheckOut where
  | ok (pos : Nat)
  | err (e : FrameErr)
  deriving Repr, DecidableEq

/-- Outcome of `Frame::parse`: a frame and the final position, an error,
or `panic` — the `unimplemented!()` arm, which aborts the process. -/
inductive ParseOut where
  | ok (f : Frame) (pos : Nat)
  | err (e : FrameErr)
  | panic
  deriving Repr

/-- Outcome of the `for _ in 0..len { Frame::parse(src)? }` loop of the
array branch. -/
inductive ParseManyOut where
  | ok (fs : List Frame) (pos : Nat)
  | err (e : FrameErr)
  | panic
  deriving Repr

/-- The `for _ in 0..len { Frame::check(src)? }` loop of `check`'s array
branch, generic in the body. -/
def runMany (step : Nat → Option CheckOut) : Nat → Nat → Option CheckOut
  | 0, pos => some (.ok pos)
  | count + 1, pos =>
    match step pos with
    | none => none
    | some (.err e) => some (.err e)
    | some (.ok p) => runMany step count p

/-- The array-element loop of `parse`, generic in the body. -/
def runManyP (step : Nat → Option ParseOut) : Nat → Nat → Option ParseManyOut
  | 0, pos => some (.ok [] pos)
  | count + 1, pos =>
    match step pos with
    | none => none
    | some (.err e) => some (.err e)
    | some .panic => some .panic
    | some (.ok f p) =>
      match runManyP step count p with
      | some (.ok fs q) => some (.ok (f :: fs) q)
      | out => out

/-- `Frame::check` (src/frame.rs lines 69-111), with fuel. -/
def checkF : Nat → List Nat → Nat → Option CheckOut
  | 0, _, _ => none
  | fuel + 1, data, pos =>
    match getU8 data pos with
    | .error e => some (.err e)
    | .ok (b, p1) =>
      if b = 43 then
        match getLine data p1 with
        | .error e => some (.err e)
        | .ok (_, p2) => some (.ok p2)
      else if b = 45 then
        match getLine data p1 with
        | .error e => some (.err e)
        | .ok (_, p2) => some (.ok p2)
      else if b = 58 then
        match getDecimal data p1 with
        | .error e => some (.err e)
        | .ok (_, p2) => some (.ok p2)
      else if b = 36 then
        match peekU8 data p1 with
        | .error e => some (.err e)
        | .ok c =>
          if c = 45 then
            match skip data p1 4 with
            | .error e => some (.err e)
            | .ok p2 => some (.ok p2)
          else
            match getDecimal data p1 with
            | .error e => some (.err e)
            | .ok (len, p2) =>
              match skip data p2 (len + 2) with
              | .error e => some (.err e)
              | .ok p3 => some (.ok p3)
      else if b = 42 then
        match getDecimal data p1 with
        | .error e => some (.err e)
        | .ok (len, p2) => runMany (checkF fuel data) len p2
      else
        some (.err (.other ("protocol error; invalid frame type byte `" ++ toString b ++ "`")))

/-- `Frame::parse` (src/frame.rs lines 116-201), with fuel.  The final
match arm is `unimplemented!()` in the source — modelled as `.panic`. -/
def parseF : Nat → List Nat → Nat → Option ParseOut
  | 0, _, _ => none
  | fuel + 1, data, pos =>
    match getU8 data pos with
    | .error e => some (.err e)
    | .ok (b, p1) =>
      if b = 43 then
        match getLine data p1 with
        | .error e => some (.err e)
        | .ok (line, p2) =>
          match bytesToString? line with
          | some s => some (.ok (.simple s) p2)
          | none => some (.err (.other "protocol error; invalid frame format"))
      else if b = 45 then
        match getLine data p1 with
        | .error e => some (.err e)
        | .ok (line, p2) =>
          match bytesToString? line with
          | some s => some (.ok (.error s) p2)
          | none => some (.err (.other "protocol error; invalid frame format"))
      else if b = 58 then
        match getDecimal data p1 with
        | .error e => some (.err e)
        | .ok (n, p2) => some (.ok (.integer n) p2)
      else if b = 36 then
        match peekU8 data p1 with
        | .error e => some (.err e)
        | .ok c =>
          if c = 45 then
            match getLine data p1 with
            | .error e => some (.err e)
            | .ok (line, p2) =>
              if line = [45, 49] then some (.ok .null p2)
              else some (.err (.other "protocol error; invalid frame format"))
          else
            match getDecimal data p1 with
            | .error e => some (.err e)
            | .ok (len, p2) =>
              if data.length - p2 < len + 2 then some (.err .incomplete)
              else some (.ok (.bulk ((data.drop p2).take len)) (p2 + len + 2))
      else if b = 42 then
        match getDecimal data p1 with
        | .error e => some (.err e)
        | .ok (len, p2) =>
          match runManyP (parseF fuel data) len p2 with
          | none => none
          | some (.err e) => some (.err e)
          | some .panic => some .panic
          | some (.ok fs q) => some (.ok (.array fs) q)
      else
        some .panic

/-- `Frame::check` from position 0 with always-sufficient fuel. -/
def Frame.check (data : List Nat) : Option CheckOut :=
  checkF (data.length + 1) data 0

/-- `Frame::parse` from position 0 with always-sufficient fuel. -/
def Frame.parse (data : List Nat) : Option ParseOut :=
  parseF (data.length + 1) data 0

/-! ## src/parse.rs — the `Parse` cursor.

A `Parse` is an iterator over the children of an `Array` frame; we model
the iterator as the list of children not yet consumed. -/

/-- `ParseError` (src/parse.rs): `EndOfStream` or `Other(message)`. -/
inductive PErr where
  | endOfStream
  | other (msg : String)
  deriving Repr, DecidableEq

/-- Rendering used in the `format!("... got {:?}", frame)` error messages.
It approximates Rust's `Debug` output; no theorem below depends on the
text of these messages. -/
def frameDebug : Frame → String
  | .simple s => "Simple(" ++ s ++ ")"
  | .error s => "Error(" ++ s ++ ")"
  | .integer n => "Integer(" ++ toString n ++ ")"
  | .bulk _ => "Bulk(..)"
  | .null => "Null"
  | .array _ => "Array(..)"

/-- The `Display` text of a `ParseError`, used when it is boxed into a
`crate::Error` by the `?` conversions. -/
def pErrString : PErr → String
  | .endOfStream => "protocol error; unexpected end of stream"
  | .other m => m

/-- `Parse::new`: accepts only an `Array` frame and yields its children. -/
def Parse.new : Frame → Except String (List Frame)
  | .array xs => .ok xs
  | f => .error ("protocol error; expected array, got " ++ frameDebug f)

/-- `Parse::next_string`: `Simple` directly, `Bulk` through UTF-8. -/
def pNextString : List Frame → Except PErr (String × List Frame)
  | [] => .error .endOfStream
  | f :: rest =>
    match f with
    | .simple s => .ok (s, rest)
    | .bulk b =>
      match bytesToString? b with
      | some s => .ok (s, rest)
      | none => .error (.other "protocol error; invalid string")
    | f2 =>
      .error (.other ("protocol error; expected simple frame or bulk frame, got " ++ frameDebug f2))

/-- `Parse::next_bytes`: `Simple` as its UTF-8 bytes, `Bulk` raw. -/
def pNextBytes : List Frame → Except PErr (List Nat × List Frame)
  | [] => .error .endOfStream
  | f :: rest =>
    match f with
    | .simple s => .ok (strBytes s, rest)
    | .bulk b => .ok (b, rest)
    | f2 =>
      .error (.other ("protocol error; expected simple frame or bulk frame, got " ++ frameDebug f2))

/-- `Parse::next_int`: `Integer` directly, `Simple`/`Bulk` through
`atoi::<u64>`. -/
def pNextInt : List Frame → Except PErr (Nat × List Frame)
  | [] => .error .endOfStream
  | f :: rest =>
    match f with
    | .integer v => .ok (v, rest)
    | .simple s =>
      match atoiU64 (strBytes s) with
      | some v => .ok (v, rest)
      | none => .error (.other "protocol error; invalid number")
    | .bulk b =>
      match atoiU64 b with
      | some v => .ok (v, rest)
      | none => .error (.other "protocol error; invalid number")
    | f2 => .error (.other ("protocol error; expected int frame but got " ++ frameDebug f2))

/-- `Parse::finish`: succeeds iff no children remain. -/
def pFinish : List Frame → Except PErr Unit
  | [] => .ok ()
  | _ => .error (.other "protocol error; expected end of frame, but there was more")

/-! ## src/cmd/*.rs — command types and their argument parsers.

`to_lowercase`/`to_uppercase` are modelled on the ASCII range only; the
strings they are compared against here ("get", "set", …, "EX", "PX") are
ASCII, and no non-ASCII character maps into any of them under Unicode
case mapping. -/

def asciiLowerChar (c : Char) : Char :=
  if 65 ≤ c.toNat ∧ c.toNat ≤ 90 then Char.ofNat (c.toNat + 32) else c

def asciiUpperChar (c : Char) : Char :=
  if 97 ≤ c.toNat ∧ c.toNat ≤ 122 then Char.ofNat (c.toNat - 32) else c

def asciiLower (s : String) : String := String.mk (s.data.map asciiLowerChar)

def asciiUpper (s : String) : String := String.mk (s.data.map asciiUpperChar)

structure GetCmd where
  key : String
  deriving Repr, DecidableEq

structure PublishCmd where
  channel : String
  message : List Nat
  deriving Repr, DecidableEq

/-- `Set` (src/cmd/set.rs): `expire` is an optional `Duration`, modelled
in milliseconds (`EX n` contributes `n * 1000`, `PX n` contributes `n`;
both are exact). -/
structure SetCmd where
  key : String
  value : List Nat
  expire : Option Nat
  deriving Repr, DecidableEq

structure SubscribeCmd where
  channels : List String
  deriving Repr, DecidableEq

structure UnsubscribeCmd where
  channels : List String
  deriving Repr, DecidableEq

structure PingCmd where
  msg : Option String
  deriving Repr, DecidableEq

structure UnknownCmd where
  commandName : String
  deriving Repr, DecidableEq

/-- `Command` (src/cmd.rs). -/
inductive Command where
  | get (c : GetCmd)
  | publish (c : PublishCmd)
  | set (c : SetCmd)
  | subscribe (c : SubscribeCmd)
  | unsubscribe (c : UnsubscribeCmd)
  | ping (c : PingCmd)
  | unknown (c : UnknownCmd)
  deriving Repr, DecidableEq

/-- `Command::get_name` (src/cmd.rs lines 114-124).  Note the source
returns `"pub"` — not `"publish"` — for `Publish`. -/
def Command.getName : Command → String
  | .get _ => "get"
  | .publish _ => "pub"
  | .set _ => "set"
  | .subscribe _ => "subscribe"
  | .unsubscribe _ => "unsubscribe"
  | .ping _ => "ping"
  | .unknown c => c.commandName

/-- `Get::parse_frames` (src/cmd/get.rs). -/
def GetCmd.parseFrames (l : List Frame) : Except String (GetCmd × List Frame) :=
  match pNextString l with
  | .error e => .error (pErrString e)
  | .ok (key, l1) => .ok (⟨key⟩, l1)

/-- `Publish::parse_frames` (src/cmd/publish.rs). -/
def PublishCmd.parseFrames (l : List Frame) : Except String (PublishCmd × List Frame) :=
  match pNextString l with
  | .error e => .error (pErrString e)
  | .ok (channel, l1) =>
    match pNextBytes l1 with
    | .error e => .error (pErrString e)
    | .ok (message, l2) => .ok (⟨channel, message⟩, l2)

/-- `Set::parse_frames` (src/cmd/set.rs lines 46-87). -/
def SetCmd.parseFrames (l : List Frame) : Except String (SetCmd × List Frame) :=
  match pNextString l with
  | .error e => .error (pErrString e)
  | .ok (key, l1) =>
    match pNextBytes l1 with
    | .error e => .error (pErrString e)
    | .ok (value, l2) =>
      match pNextString l2 with
      | .ok (s, l3) =>
        if asciiUpper s = "EX" then
          match pNextInt l3 with
          | .error e => .error (pErrString e)
          | .ok (secs, l4) => .ok (⟨key, value, some (secs * 1000)⟩, l4)
        else if asciiUpper s = "PX" then
          match pNextInt l3 with
          | .error e => .error (pErrString e)
          | .ok (ms, l4) => .ok (⟨key, value, some ms⟩, l4)
        else .error "currently `SET` only supports the expiration option"
      | .error .endOfStream => .ok (⟨key, value, none⟩, l2)
      | .error e => .error (pErrString e)

/-- The `loop { match parse.next_string() ... }` shared by
`Subscribe::parse_frames` and `Unsubscribe::parse_frames`: read strings
until `EndOfStream` (the cursor is exhausted — `pNextString` on a
non-empty cursor consumes exactly its head, see `pNextString_tail`), on
which the loop breaks with everything consumed. -/
def stringsLoop : List Frame → Except String (List String)
  | [] => .ok []
  | f :: rest =>
    match pNextString (f :: rest) with
    | .error .endOfStream => .ok []
    | .error e => .error (pErrString e)
    | .ok (s, _) =>
      match stringsLoop rest with
      | .error e => .error e
      | .ok ss => .ok (s :: ss)

/-- `Subscribe::parse_frames` (src/cmd/subscribe.rs lines 57-86): one
channel required, then all remaining entries as strings. -/
def SubscribeCmd.parseFrames (l : List Frame) : Except String (SubscribeCmd × List Frame) :=
  match pNextString l with
  | .error e => .error (pErrString e)
  | .ok (first, l1) =>
    match stringsLoop l1 with
    | .error e => .error e
    | .ok ss => .ok (⟨first :: ss⟩, [])

/-- `Unsubscribe::parse_frames` (src/cmd/subscribe.rs lines 335-358):
zero or more channels. -/
def UnsubscribeCmd.parseFrames (l : List Frame) : Except String (UnsubscribeCmd × List Frame) :=
  match stringsLoop l with
  | .error e => .error e
  | .ok ss => .ok (⟨ss⟩, [])

/-- `Ping::parse_frames` (src/cmd/ping.rs). -/
def PingCmd.parseFrames (l : List Frame) : Except String (PingCmd × List Frame) :=
  match pNextString l with
  | .ok (m, l1) => .ok (⟨some m⟩, l1)
  | .error .endOfStream => .ok (⟨none⟩, l)
  | .error e => .error (pErrString e)

/-- `Command::from_frame` (src/cmd.rs lines 41-81): dispatch on the
lowercased first string, then the per-command parser, then `finish()`
(skipped for unknown commands). -/
def Command.fromFrame (f : Frame) : Except String Command :=
  match Parse.new f with
  | .error e => .error e
  | .ok parts =>
    match pNextString parts with
    | .error e => .error (pErrString e)
    | .ok (name, rest) =>
      let commandName := asciiLower name
      let parsed : Except String (Option (Command × List Frame)) :=
        if commandName = "get" then
          match GetCmd.parseFrames rest with
          | .error e => .error e
          | .ok (c, r) => .ok (some (.get c, r))
        else if commandName = "publish" then
          match PublishCmd.parseFrames rest with
          | .error e => .error e
          | .ok (c, r) => .ok (some (.publish c, r))
        else if commandName = "set" then
          match SetCmd.parseFrames rest with
          | .error e => .error e
          | .ok (c, r) => .ok (some (.set c, r))
        else if commandName = "subscribe" then
          match SubscribeCmd.parseFrames rest with
          | .error e => .error e
          | .ok (c, r) => .ok (some (.subscribe c, r))
        else if commandName = "unsubscribe" then
          match UnsubscribeCmd.parseFrames rest with
          | .error e => .error e
          | .ok (c, r) => .ok (some (.unsubscribe c, r))
        else if commandName = "ping" then
          match PingCmd.parseFrames rest with
          | .error e => .error e
          | .ok (c, r) => .ok (some (.ping c, r))
        else .ok none
      match parsed with
      | .error e => .error e
      | .ok none => .ok (.unknown ⟨commandName⟩)
      | .ok (some (c, r)) =>
        match pFinish r with
        | .error e => .error (pErrString e)
        | .ok _ => .ok c

/-! ## src/cmd/unknown.rs -/

/-- The reply frame written by `Unknown::apply`. -/
def unknownReply (name : String) : Frame :=
  .error ("ERR unknown command '" ++ name ++ "'")

/-! ## src/cmd/subscribe.rs — the subscription sub-loop.

The `StreamMap<String, Messages>` is modelled as an association list from
channel name to a receiver token (`Nat`).  `tokio_stream`'s
`StreamMap::insert` removes any existing entry for the key and pushes the
new one; `remove` removes the first (under the map's no-duplicate-keys
discipline: the only) entry for the key.  `remove` is a `swap_remove` in
tokio, which differs from our erase only in the internal order of the
remaining entries; no property proved below depends on that order. -/

def smKeys (subs : List (String × Nat)) : List String := subs.map Prod.fst

def smRemove (subs : List (String × Nat)) (k : String) : List (String × Nat) :=
  subs.eraseP (fun p => p.1 == k)

def smInsert (subs : List (String × Nat)) (k : String) (v : Nat) : List (String × Nat) :=
  smRemove subs k ++ [(k, v)]

def smLookup : List (String × Nat) → String → Option Nat
  | [], _ => none
  | (k1, v1) :: rest, k => if k1 = k then some v1 else smLookup rest k

/-- `make_subscribe_frame`. -/
def mkSubscribeFrame (ch : String) (numSubs : Nat) : Frame :=
  .array [.bulk (strBytes "subscribe"), .bulk (strBytes ch), .integer numSubs]

/-- `make_unsubscribe_frame`. -/
def mkUnsubscribeFrame (ch : String) (numSubs : Nat) : Frame :=
  .array [.bulk (strBytes "unsubscribe"), .bulk (strBytes ch), .integer numSubs]

/-- `make_message_frame`. -/
def mkMessageFrame (ch : String) (msg : List Nat) : Frame :=
  .array [.bulk (strBytes "message"), .bulk (strBytes ch), .bulk msg]

/-- `subscribe_to_channel` (src/cmd/subscribe.rs lines 190-218): insert
the fresh receiver `rx` under the channel name, then ack with the *new*
total `subscriptions.len()`.  Returns the updated map and the ack frame
written to the connection. -/
def subscribeToChannel (ch : String) (rx : Nat) (subs : List (String × Nat)) :
    List (String × Nat) × Frame :=
  let subs2 := smInsert subs ch rx
  (subs2, mkSubscribeFrame ch subs2.length)

/-- The `for channel_name in unsubscribe.channels` loop of
`handle_command`: remove, then ack with the size *after* the removal.
Returns the final map and the ack frames in writing order. -/
def unsubLoop : List String → List (String × Nat) → List (String × Nat) × List Frame
  | [], subs => (subs, [])
  | n :: rest, subs =>
    let subs1 := smRemove subs n
    let r := unsubLoop rest subs1
    (r.1, mkUnsubscribeFrame n subs1.length :: r.2)

/-- `handle_command` (src/cmd/subscribe.rs lines 226-282) after
`Command::from_frame` succeeded.  Returns the updated pending-subscribe
list (`subscribe_to`), the updated subscription map, and the frames
written to the connection.  Every branch returns `Ok(())` in the source,
so the sub-loop always continues afterwards. -/
def handleCommand (cmd : Command) (subscribeTo : List String) (subs : List (String × Nat)) :
    List String × List (String × Nat) × List Frame :=
  match cmd with
  | .subscribe c => (subscribeTo ++ c.channels, subs, [])
  | .unsubscribe c =>
    let names := if c.channels.isEmpty then smKeys subs else c.channels
    let r := unsubLoop names subs
    (subscribeTo, r.1, r.2)
  | cmd2 => (subscribeTo, subs, [unknownReply cmd2.getName])

/-! ## src/cmd.rs — top-level dispatch of `Command::apply`. -/

/-- The dispatch decision of `Command::apply` (src/cmd.rs lines 91-111):
every variant is forwarded to its own `apply`, except `Unsubscribe`,
which immediately returns `Err(...)` without writing anything. -/
inductive ApplyDispatch where
  | runGet (c : GetCmd)
  | runPublish (c : PublishCmd)
  | runSet (c : SetCmd)
  | runSubscribe (c : SubscribeCmd)
  | runPing (c : PingCmd)
  | runUnknown (c : UnknownCmd)
  | unsupported (msg : String)
  deriving Repr, DecidableEq

def Command.applyDispatch : Command → ApplyDispatch
  | .get c => .runGet c
  | .publish c => .runPublish c
  | .set c => .runSet c
  | .subscribe c => .runSubscribe c
  | .ping c => .runPing c
  | .unknown c => .runUnknown c
  | .unsubscribe _ => .unsupported "`Unsubscribe` is unsupported in this context"

/-- Modelled from the spec: the per-connection handler lives in
`src/server.rs`, which lib.rs declares (`pub mod server`) but which is
absent from the sources; only its callee `Command::apply` is present.
Spec §7 (error table): on `Unsupported in this context` the server
replies with `Error(...)` and the connection continues.  The `Bool` is
"the connection keeps serving further commands". -/
def handlerOnUnsupported (msg : String) : List Frame × Bool :=
  ([Frame.error msg], true)

/-- Composition of the two: what the server does with a command whose
dispatch arm is the `Unsupported` one (`none` for commands whose arm
executes the command instead). -/
def serverUnsupportedReply (cmd : Command) : Option (List Frame × Bool) :=
  match Command.applyDispatch cmd with
  | .unsupported msg => some (handlerOnUnsupported msg)
  | _ => none

/-! ## src/db.rs — the shared store.

`Instant` is a `Nat` (milliseconds); `Bytes` is a `List Nat`.  The
`HashMap<String, Entry>` is an association list with unique keys; the
`BTreeMap<(Instant, u64), String>` is an association list sorted
strictly by the lexicographic key order, so its head is the map's
minimum.  The broadcast senders carry no state relevant to the claims,
so `pub_sub` is modelled as the list of channel names holding a
sender. -/

structure EntryM where
  id : Nat
  data : List Nat
  expiresAt : Option Nat
  deriving Repr, DecidableEq

structure StateM where
  entries : List (String × EntryM)
  pubSub : List String
  expirations : List ((Nat × Nat) × String)
  nextId : Nat
  shutdown : Bool
  deriving Repr, DecidableEq

/-- The lexicographic strict order on `(Instant, u64)` keys used by the
`BTreeMap`. -/
def keyLt (a b : Nat × Nat) : Bool :=
  a.1 < b.1 || (a.1 == b.1 && a.2 < b.2)

def lookupEntry : List (String × EntryM) → String → Option EntryM
  | [], _ => none
  | (k1, v1) :: rest, k => if k1 = k then some v1 else lookupEntry rest k

/-- `HashMap::insert`: replace in place, returning the previous value. -/
def entriesInsert : List (String × EntryM) → String → EntryM →
    Option EntryM × List (String × EntryM)
  | [], k, v => (none, [(k, v)])
  | (k1, v1) :: rest, k, v =>
    if k1 = k then (some v1, (k, v) :: rest)
    else
      let r := entriesInsert rest k v
      (r.1, (k1, v1) :: r.2)

/-- `HashMap::remove` by key (keys are unique). -/
def entriesRemove (es : List (String × EntryM)) (k : String) : List (String × EntryM) :=
  es.filter (fun p => p.1 != k)

/-- `BTreeMap::insert`: ordered insert, replacing an equal key. -/
def expInsert : List ((Nat × Nat) × String) → (Nat × Nat) → String →
    List ((Nat × Nat) × String)
  | [], key, v => [(key, v)]
  | (k1, v1) :: rest, key, v =>
    if keyLt key k1 then (key, v) :: (k1, v1) :: rest
    else if key = k1 then (key, v) :: rest
    else (k1, v1) :: expInsert rest key v

/-- `BTreeMap::remove` by key (keys are unique in a sorted map). -/
def expRemove (l : List ((Nat × Nat) × String)) (key : Nat × Nat) :
    List ((Nat × Nat) × String) :=
  l.filter (fun q => q.1 != key)

/-- `State::next_expiration` (src/db.rs lines 408-413): the `Instant` of
the first (minimum) key. -/
def nextExpiration (l : List ((Nat × Nat) × String)) : Option Nat :=
  l.head?.map (fun q => q.1.1)

/-- `Db::set` (src/db.rs lines 178-257).  Returns the new state and the
`notify` flag (whether `background_task.notify_one()` is called after
the lock is released), or `none` when the call panics: when `expire` is
set and `expirations` is empty, `next_expiration().map(..).unwrap()`
unwraps `None`. -/
def dbSet (s : StateM) (key : String) (value : List Nat) (expire : Option Nat) (now : Nat) :
    Option (StateM × Bool) :=
  let id := s.nextId
  let step : Option (Bool × Option Nat × List ((Nat × Nat) × String)) :=
    match expire with
    | some d =>
      let «when» := now + d
      match nextExpiration s.expirations with
      | none => none
      | some m => some (decide (m > «when»), some «when», expInsert s.expirations («when», id) key)
    | none => some (false, none, s.expirations)
  match step with
  | none => none
  | some (notify, expiresAt, exps1) =>
    let r := entriesInsert s.entries key { id := id, data := value, expiresAt := expiresAt }
    let exps2 :=
      match r.1 with
      | some prev =>
        match prev.expiresAt with
        | some pw => expRemove exps1 (pw, prev.id)
        | none => exps1
      | none => exps1
    some ({ s with entries := r.2, expirations := exps2, nextId := id + 1 }, notify)

/-- `Db::get` (src/db.rs lines 162-171): a read under the lock; the
state is unchanged. -/
def dbGet (s : StateM) (key : String) : Option (List Nat) × StateM :=
  ((lookupEntry s.entries key).map (fun e => e.data), s)

/-- `Db::subscribe` (src/db.rs lines 263-300): create the broadcast
channel on first use; the state change is the lazily-created sender. -/
def dbSubscribe (s : StateM) (key : String) : StateM :=
  if key ∈ s.pubSub then s else { s with pubSub := s.pubSub ++ [key] }

/-- `Db::publish` (src/db.rs lines 304-319): sending on a broadcast
channel does not modify `State`. -/
def dbPublish (s : StateM) (_key : String) (_value : List Nat) : StateM :=
  s

/-- `Db::shutdown_purge_task` (src/db.rs lines 323-342). -/
def shutdownPurgeTask (s : StateM) : StateM :=
  { s with shutdown := true }

/-- The `while let` loop of `purge_expired_keys`: repeatedly remove the
minimum of `expirations` (the head of the sorted list) and the matching
entry while the deadline is `≤ now`; stop at the first deadline
`> now`, returning it. -/
def purgeLoop : List ((Nat × Nat) × String) → List (String × EntryM) → Nat →
    List ((Nat × Nat) × String) × List (String × EntryM) × Option Nat
  | [], es, _ => ([], es, none)
  | ((w, i), k) :: rest, es, now =>
    if now < w then (((w, i), k) :: rest, es, some w)
    else purgeLoop rest (entriesRemove es k) now

/-- `Shared::purge_expired_keys` (src/db.rs lines 348-389). -/
def purgeExpiredKeys (s : StateM) (now : Nat) : StateM × Option Nat :=
  if s.shutdown then (s, none)
  else
    let r := purgeLoop s.expirations s.entries now
    ({ s with expirations := r.1, entries := r.2.1 }, r.2.2)

/-- Spec-side description of what a purge pass does to one looked-up
entry: an entry whose deadline is `≤ now` is gone, any other is kept
(used to state claim C5). -/
def liveAfter (now : Nat) : Option EntryM → Option EntryM
  | some e =>
    (match e.expiresAt with
     | some t => if t ≤ now then none else some e
     | none => some e)
  | none => none

/-- `Set::apply` (src/cmd/set.rs lines 94-104): `db.set(...)`, then the
reply `Simple("OK")` is written; `none` when `db.set` panics. -/
def SetCmd.apply (c : SetCmd) (s : StateM) (now : Nat) : Option (StateM × Frame) :=
  match dbSet s c.key c.value c.expire now with
  | none => none
  | some (s1, _) => some (s1, .simple "OK")

/-! ## The state invariant of claim C4.

`fwdCheck`/`bwdCheck` are the two clauses of the claimed invariant;
`Inv` bundles them with the facts that make them preservable and that
the spec lists alongside them (§3 Invariants): unique entry keys, the
sorted expiration index (hence "exactly one" mapping per key), and
entry ids below `next_id`. -/

/-- Every entry with a deadline owns the matching mapping in
`expirations`. -/
def fwdCheck (exps : List ((Nat × Nat) × String)) (p : String × EntryM) : Bool :=
  match p.2.expiresAt with
  | some t => decide (((t, p.2.id), p.1) ∈ exps)
  | none => true

/-- Every mapping in `expirations` points back at an entry with that id
and that deadline. -/
def bwdCheck (entries : List (String × EntryM)) (q : (Nat × Nat) × String) : Bool :=
  match lookupEntry entries q.2 with
  | some e => e.id == q.1.2 && e.expiresAt == some q.1.1
  | none => false

abbrev expSorted (l : List ((Nat × Nat) × String)) : Prop :=
  List.Pairwise (fun a b => keyLt a.1 b.1 = true) l

abbrev Inv (s : StateM) : Prop :=
  (s.entries.map Prod.fst).Nodup ∧
  expSorted s.expirations ∧
  (∀ p ∈ s.entries, fwdCheck s.expirations p = true) ∧
  (∀ q ∈ s.expirations, bwdCheck s.entries q = true) ∧
  (∀ p ∈ s.entries, p.2.id < s.nextId)

/-! ## Spec-side predicate for claim C7 (refinement).

`setArgsSpec` follows the words of the claim: the arguments after the
command name are a key string, a value, and then either nothing, or
exactly one case-insensitive token `EX` or `PX` followed by an unsigned
64-bit integer with no tokens after it. -/

/-- The string a token denotes for `next_string` purposes. -/
def tokenString? : Frame → Option String
  | .simple s => some s
  | .bulk b => bytesToString? b
  | _ => none

def isStringToken (f : Frame) : Bool := (tokenString? f).isSome

def isValueToken : Frame → Bool
  | .simple _ => true
  | .bulk _ => true
  | _ => false

def isIntToken : Frame → Bool
  | .integer _ => true
  | .simple s => (atoiU64 (strBytes s)).isSome
  | .bulk b => (atoiU64 b).isSome
  | _ => false

def isExPxToken (f : Frame) : Bool :=
  match tokenString? f with
  | some s => asciiUpper s == "EX" || asciiUpper s == "PX"
  | none => false

/-- Follows the spec's words (claim C7), not the parser's code: a key
string, a value, and then either nothing, or exactly one case-insensitive
`EX`/`PX` token followed by an unsigned 64-bit integer with no tokens
after it. -/
def setArgsSpec : List Frame → Bool
  | k :: v :: rest =>
    isStringToken k && isValueToken v &&
      (match rest with
       | [] => true
       | [t, n] => isExPxToken t && isIntToken n
       | _ => false)
  | _ => false

/-- Whether `Command::from_frame` succeeds and yields a `Set` command. -/
def parsesAsSet (f : Frame) : Bool :=
  match Command.fromFrame f with
  | .ok (.set _) => true
  | _ => false

/-- `Set::parse_frames` followed by the `finish()` that
`Command::from_frame` requires, as a Bool. -/
def setParseOkB (args : List Frame) : Bool :=
  match SetCmd.parseFrames args with
  | .ok (_, r) =>
    match pFinish r with
    | .ok _ => true
    | .error _ => false
  | .error _ => false

/-! ### Cursor-helper facts -/

theorem findCRLF_bound : ∀ {l : List Nat} {j : Nat}, findCRLF l = some j → j + 2 ≤ l.length := by
  intro l
  induction l with
  | nil => intro j h; simp [findCRLF] at h
  | cons a t ih =>
    intro j h
    cases t with
    | nil => simp [findCRLF] at h
    | cons b r =>
      rw [findCRLF] at h
      by_cases hab : a = 13 ∧ b = 10
      · rw [if_pos hab] at h
        cases h
        simp
      · rw [if_neg hab] at h
        cases hf : findCRLF (b :: r) with
        | none => rw [hf] at h; cases h
        | some j' =>
          rw [hf] at h
          simp only [Option.map_some'] at h
          cases h
          have := ih hf
          simp only [List.length_cons] at this ⊢
          omega

theorem getU8_ok {data : List Nat} {pos b p1 : Nat}
    (h : getU8 data pos = .ok (b, p1)) : p1 = pos + 1 ∧ pos < data.length := by
  unfold getU8 at h
  cases hg : data.get? pos with
  | some c =>
    rw [hg] at h
    refine ⟨by cases h; rfl, ?_⟩
    exact (List.get?_eq_some.mp hg).1
  | none => rw [hg] at h; cases h

theorem getLine_ok {data : List Nat} {pos : Nat} {line : List Nat} {p : Nat}
    (h : getLine data pos = .ok (line, p)) :
    p = pos + line.length + 2 ∧ line.length + 2 ≤ data.length - pos := by
  unfold getLine at h
  cases hf : findCRLF (data.drop pos) with
  | some j =>
    rw [hf] at h
    have hb := findCRLF_bound hf
    rw [List.length_drop] at hb
    cases h
    constructor
    · have : ((data.drop pos).take j).length = j := by
        rw [List.length_take, List.length_drop]; omega
      omega
    · have : ((data.drop pos).take j).length = j := by
        rw [List.length_take, List.length_drop]; omega
      omega
  | none => rw [hf] at h; cases h

theorem getDecimal_ok {data : List Nat} {pos n p : Nat}
    (h : getDecimal data pos = .ok (n, p)) :
    pos + 2 ≤ p ∧ p ≤ data.length := by
  unfold getDecimal at h
  cases hl : getLine data pos with
  | error e => rw [hl] at h; cases h
  | ok lp =>
    obtain ⟨line, q⟩ := lp
    rw [hl] at h
    dsimp only at h
    cases ha : atoiU64 line with
    | some m =>
      rw [ha] at h
      cases h
      have := getLine_ok hl
      omega
    | none => rw [ha] at h; cases h

/-! ### `parse` refines `check`: whenever `parse` succeeds, `check`
succeeds from the same start and leaves the cursor at the same
position. -/

theorem runManyP_refines {stepP : Nat → Option ParseOut} {stepC : Nat → Option CheckOut}
    (hstep : ∀ q f r, stepP q = some (.ok f r) → stepC q = some (.ok r)) :
    ∀ count pos fs p, runManyP stepP count pos = some (.ok fs p) →
      runMany stepC count pos = some (.ok p) := by
  intro count
  induction count with
  | zero =>
    intro pos fs p h
    rw [runManyP] at h
    cases h
    rfl
  | succ c ih =>
    intro pos fs p h
    rw [runManyP] at h
    rw [runMany]
    cases hs : stepP pos with
    | none => rw [hs] at h; cases h
    | some out =>
      rw [hs] at h
      cases out with
      | err e => dsimp only at h; cases h
      | panic => dsimp only at h; cases h
      | ok f q =>
        dsimp only at h
        rw [hstep pos f q hs]
        dsimp only
        cases hm : runManyP stepP c q with
        | none => rw [hm] at h; cases h
        | some out2 =>
          rw [hm] at h
          cases out2 with
          | err e => dsimp only at h; cases h
          | panic => dsimp only at h; cases h
          | ok fs2 r =>
            dsimp only at h
            cases h
            exact ih q fs2 p hm

theorem parseF_refines_checkF : ∀ fuel data pos f p,
    parseF fuel data pos = some (.ok f p) → checkF fuel data pos = some (.ok p) := by
  intro fuel
  induction fuel with
  | zero => intro data pos f p h; rw [parseF] at h; cases h
  | succ n ih =>
    intro data pos f p h
    rw [parseF] at h
    rw [checkF]
    cases hg : getU8 data pos with
    | error e =>
      try rw [hg] at h
      try rw [hg]
      dsimp only at h; cases h
    | ok bp =>
      obtain ⟨b, p1⟩ := bp
      try rw [hg] at h
      try rw [hg]
      dsimp only at h ⊢
      by_cases hb1 : b = 43
      · rw [if_pos hb1] at h ⊢
        cases hl : getLine data p1 with
        | error e =>
          try rw [hl] at h
          dsimp only at h; cases h
        | ok lp =>
          obtain ⟨line, p2⟩ := lp
          try rw [hl] at h
          try rw [hl]
          dsimp only at h ⊢
          cases hd : bytesToString? line with
          | some s =>
            try rw [hd] at h
            dsimp only at h; cases h; rfl
          | none =>
            try rw [hd] at h
            dsimp only at h; cases h
      · rw [if_neg hb1] at h ⊢
        by_cases hb2 : b = 45
        · rw [if_pos hb2] at h ⊢
          cases hl : getLine data p1 with
          | error e =>
            try rw [hl] at h
            dsimp only at h; cases h
          | ok lp =>
            obtain ⟨line, p2⟩ := lp
            try rw [hl] at h
            try rw [hl]
            dsimp only at h ⊢
            cases hd : bytesToString? line with
            | some s =>
              try rw [hd] at h
              dsimp only at h; cases h; rfl
            | none =>
              try rw [hd] at h
              dsimp only at h; cases h
        · rw [if_neg hb2] at h ⊢
          by_cases hb3 : b = 58
          · rw [if_pos hb3] at h ⊢
            cases hd : getDecimal data p1 with
            | error e =>
              try rw [hd] at h
              dsimp only at h; cases h
            | ok np =>
              obtain ⟨m, p2⟩ := np
              try rw [hd] at h
              try rw [hd]
              dsimp only at h ⊢
              cases h
              rfl
          · rw [if_neg hb3] at h ⊢
            by_cases hb4 : b = 36
            · rw [if_pos hb4] at h ⊢
              cases hp : peekU8 data p1 with
              | error e =>
                try rw [hp] at h
                dsimp only at h; cases h
              | ok c =>
                try rw [hp] at h
                try rw [hp]
                dsimp only at h ⊢
                by_cases hc : c = 45
                · rw [if_pos hc] at h ⊢
                  cases hl : getLine data p1 with
                  | error e =>
                    try rw [hl] at h
                    dsimp only at h; cases h
                  | ok lp =>
                    obtain ⟨line, p2⟩ := lp
                    try rw [hl] at h
                    dsimp only at h
                    by_cases hline : line = [45, 49]
                    · rw [if_pos hline] at h
                      cases h
                      have hg1 := getLine_ok hl
                      have hlen : line.length = 2 := by rw [hline]; rfl
                      unfold skip
                      rw [if_neg (by omega)]
                      dsimp only
                      congr 2
                      omega
                    · rw [if_neg hline] at h; cases h
                · rw [if_neg hc] at h ⊢
                  cases hd : getDecimal data p1 with
                  | error e =>
                    try rw [hd] at h
                    dsimp only at h; cases h
                  | ok np =>
                    obtain ⟨len, p2⟩ := np
                    try rw [hd] at h
                    try rw [hd]
                    dsimp only at h ⊢
                    by_cases hrem : data.length - p2 < len + 2
                    · rw [if_pos hrem] at h; cases h
                    · rw [if_neg hrem] at h
                      cases h
                      unfold skip
                      rw [if_neg hrem]
                      dsimp only
                      congr 2
                      try omega
            · rw [if_neg hb4] at h ⊢
              by_cases hb5 : b = 42
              · rw [if_pos hb5] at h ⊢
                cases hd : getDecimal data p1 with
                | error e =>
                  try rw [hd] at h
                  dsimp only at h; cases h
                | ok np =>
                  obtain ⟨len, p2⟩ := np
                  try rw [hd] at h
                  try rw [hd]
                  dsimp only at h ⊢
                  cases hm : runManyP (parseF n data) len p2 with
                  | none =>
                    try rw [hm] at h
                    dsimp only at h; cases h
                  | some out =>
                    try rw [hm] at h
                    cases out with
                    | err e => dsimp only at h; cases h
                    | panic => dsimp only at h; cases h
                    | ok fs q =>
                      dsimp only at h
                      cases h
                      exact runManyP_refines (fun q2 f2 r2 => ih data q2 f2 r2) len p2 fs p hm
              · rw [if_neg hb5] at h
                cases h

/-! ### The fuel of the top-level wrappers is always sufficient. -/

theorem skip_ok {data : List Nat} {pos n p : Nat}
    (h : skip data pos n = .ok p) : p = pos + n ∧ n ≤ data.length - pos := by
  unfold skip at h
  by_cases hc : data.length - pos < n
  · rw [if_pos hc] at h; cases h
  · rw [if_neg hc] at h; cases h; exact ⟨rfl, by omega⟩

theorem runMany_progress {step : Nat → Option CheckOut} {L : Nat}
    (hstep : ∀ q r, step q = some (.ok r) → q < r ∧ r ≤ L) :
    ∀ count pos p, pos ≤ L → runMany step count pos = some (.ok p) → pos ≤ p ∧ p ≤ L := by
  intro count
  induction count with
  | zero =>
    intro pos p hL h
    rw [runMany] at h
    cases h
    exact ⟨le_refl _, hL⟩
  | succ c ih =>
    intro pos p hL h
    rw [runMany] at h
    cases hs : step pos with
    | none => rw [hs] at h; cases h
    | some out =>
      rw [hs] at h
      cases out with
      | err e => dsimp only at h; cases h
      | ok r =>
        dsimp only at h
        have hr := hstep pos r hs
        have := ih r p (hr.2) h
        omega

theorem checkF_progress : ∀ fuel data pos p,
    checkF fuel data pos = some (.ok p) → pos < p ∧ p ≤ data.length := by
  intro fuel
  induction fuel with
  | zero => intro data pos p h; rw [checkF] at h; cases h
  | succ n ih =>
    intro data pos p h
    rw [checkF] at h
    cases hg : getU8 data pos with
    | error e =>
      try rw [hg] at h
      dsimp only at h; cases h
    | ok bp =>
      obtain ⟨b, p1⟩ := bp
      try rw [hg] at h
      dsimp only at h
      have hu := getU8_ok hg
      by_cases hb1 : b = 43
      · rw [if_pos hb1] at h
        cases hl : getLine data p1 with
        | error e => try rw [hl] at h; dsimp only at h; cases h
        | ok lp =>
          obtain ⟨line, p2⟩ := lp
          try rw [hl] at h
          dsimp only at h
          cases h
          have := getLine_ok hl
          omega
      · rw [if_neg hb1] at h
        by_cases hb2 : b = 45
        · rw [if_pos hb2] at h
          cases hl : getLine data p1 with
          | error e => try rw [hl] at h; dsimp only at h; cases h
          | ok lp =>
            obtain ⟨line, p2⟩ := lp
            try rw [hl] at h
            dsimp only at h
            cases h
            have := getLine_ok hl
            omega
        · rw [if_neg hb2] at h
          by_cases hb3 : b = 58
          · rw [if_pos hb3] at h
            cases hd : getDecimal data p1 with
            | error e => try rw [hd] at h; dsimp only at h; cases h
            | ok np =>
              obtain ⟨m, p2⟩ := np
              try rw [hd] at h
              dsimp only at h
              cases h
              have := getDecimal_ok hd
              omega
          · rw [if_neg hb3] at h
            by_cases hb4 : b = 36
            · rw [if_pos hb4] at h
              cases hp : peekU8 data p1 with
              | error e => try rw [hp] at h; dsimp only at h; cases h
              | ok c =>
                try rw [hp] at h
                dsimp only at h
                by_cases hc : c = 45
                · rw [if_pos hc] at h
                  cases hsk : skip data p1 4 with
                  | error e => try rw [hsk] at h; dsimp only at h; cases h
                  | ok p2 =>
                    try rw [hsk] at h
                    dsimp only at h
                    cases h
                    have := skip_ok hsk
                    omega
                · rw [if_neg hc] at h
                  cases hd : getDecimal data p1 with
                  | error e => try rw [hd] at h; dsimp only at h; cases h
                  | ok np =>
                    obtain ⟨len, p2⟩ := np
                    try rw [hd] at h
                    dsimp only at h
                    cases hsk : skip data p2 (len + 2) with
                    | error e => try rw [hsk] at h; dsimp only at h; cases h
                    | ok p3 =>
                      try rw [hsk] at h
                      dsimp only at h
                      cases h
                      have h1 := getDecimal_ok hd
                      have h2 := skip_ok hsk
                      omega
            · rw [if_neg hb4] at h
              by_cases hb5 : b = 42
              · rw [if_pos hb5] at h
                cases hd : getDecimal data p1 with
                | error e => try rw [hd] at h; dsimp only at h; cases h
                | ok np =>
                  obtain ⟨len, p2⟩ := np
                  try rw [hd] at h
                  dsimp only at h
                  have h1 := getDecimal_ok hd
                  have h2 := runMany_progress (fun q r hq => ih data q r hq) len p2 p h1.2 h
                  omega
              · rw [if_neg hb5] at h
                cases h

theorem runMany_not_none {step : Nat → Option CheckOut} {base : Nat}
    (hsuff : ∀ q, base ≤ q → step q ≠ none)
    (hprog : ∀ q r, step q = some (.ok r) → q < r) :
    ∀ count pos, base ≤ pos → runMany step count pos ≠ none := by
  intro count
  induction count with
  | zero => intro pos hb; rw [runMany]; exact Option.some_ne_none _
  | succ c ih =>
    intro pos hb
    rw [runMany]
    cases hs : step pos with
    | none => exact absurd hs (hsuff pos hb)
    | some out =>
      cases out with
      | err e => exact Option.some_ne_none _
      | ok r =>
        dsimp only
        exact ih r (le_of_lt (lt_of_le_of_lt hb (hprog pos r hs)))

theorem checkF_sufficient : ∀ fuel data pos,
    data.length - pos < fuel → checkF fuel data pos ≠ none := by
  intro fuel
  induction fuel with
  | zero => intro data pos h; omega
  | succ n ih =>
    intro data pos hfuel
    rw [checkF]
    cases hg : getU8 data pos with
    | error e => exact Option.some_ne_none _
    | ok bp =>
      obtain ⟨b, p1⟩ := bp
      dsimp only
      have hu := getU8_ok hg
      by_cases hb1 : b = 43
      · rw [if_pos hb1]
        cases getLine data p1 with
        | error e => exact Option.some_ne_none _
        | ok lp => exact Option.some_ne_none _
      · rw [if_neg hb1]
        by_cases hb2 : b = 45
        · rw [if_pos hb2]
          cases getLine data p1 with
          | error e => exact Option.some_ne_none _
          | ok lp => exact Option.some_ne_none _
        · rw [if_neg hb2]
          by_cases hb3 : b = 58
          · rw [if_pos hb3]
            cases getDecimal data p1 with
            | error e => exact Option.some_ne_none _
            | ok np => exact Option.some_ne_none _
          · rw [if_neg hb3]
            by_cases hb4 : b = 36
            · rw [if_pos hb4]
              cases peekU8 data p1 with
              | error e => exact Option.some_ne_none _
              | ok c =>
                dsimp only
                by_cases hc : c = 45
                · rw [if_pos hc]
                  cases skip data p1 4 with
                  | error e => exact Option.some_ne_none _
                  | ok p2 => exact Option.some_ne_none _
                · rw [if_neg hc]
                  cases getDecimal data p1 with
                  | error e => exact Option.some_ne_none _
                  | ok np =>
                    dsimp only
                    cases skip data np.2 (np.1 + 2) with
                    | error e => exact Option.some_ne_none _
                    | ok p3 => exact Option.some_ne_none _
            · rw [if_neg hb4]
              by_cases hb5 : b = 42
              · rw [if_pos hb5]
                cases hd : getDecimal data p1 with
                | error e => exact Option.some_ne_none _
                | ok np =>
                  obtain ⟨len, p2⟩ := np
                  dsimp only
                  have h1 := getDecimal_ok hd
                  refine runMany_not_none ?_ ?_ len p2 (le_refl _)
                  · intro q hq
                    exact ih data q (by omega)
                  · intro q r hq
                    exact (checkF_progress n data q r hq).1
              · rw [if_neg hb5]
                exact Option.some_ne_none _

theorem runManyP_not_none {step : Nat → Option ParseOut} {base : Nat}
    (hsuff : ∀ q, base ≤ q → step q ≠ none)
    (hprog : ∀ q f r, step q = some (.ok f r) → q < r) :
    ∀ count pos, base ≤ pos → runManyP step count pos ≠ none := by
  intro count
  induction count with
  | zero => intro pos hb; rw [runManyP]; exact Option.some_ne_none _
  | succ c ih =>
    intro pos hb
    rw [runManyP]
    cases hs : step pos with
    | none => exact absurd hs (hsuff pos hb)
    | some out =>
      cases out with
      | err e => exact Option.some_ne_none _
      | panic => exact Option.some_ne_none _
      | ok f r =>
        dsimp only
        have : runManyP step c r ≠ none :=
          ih r (le_of_lt (lt_of_le_of_lt hb (hprog pos f r hs)))
        cases hm : runManyP step c r with
        | none => exact absurd hm this
        | some out2 =>
          cases out2 with
          | err e => exact Option.some_ne_none _
          | panic => exact Option.some_ne_none _
          | ok fs q => exact Option.some_ne_none _

/-- Positions only move forward in `parse` (via the refinement into
`check`). -/
theorem parseF_progress (fuel : Nat) (data : List Nat) (pos : Nat) (f : Frame) (p : Nat)
    (h : parseF fuel data pos = some (.ok f p)) : pos < p ∧ p ≤ data.length :=
  checkF_progress fuel data pos p (parseF_refines_checkF fuel data pos f p h)

theorem parseF_sufficient : ∀ fuel data pos,
    data.length - pos < fuel → parseF fuel data pos ≠ none := by
  intro fuel
  induction fuel with
  | zero => intro data pos h; omega
  | succ n ih =>
    intro data pos hfuel
    rw [parseF]
    cases hg : getU8 data pos with
    | error e => exact Option.some_ne_none _
    | ok bp =>
      obtain ⟨b, p1⟩ := bp
      dsimp only
      have hu := getU8_ok hg
      by_cases hb1 : b = 43
      · rw [if_pos hb1]
        cases getLine data p1 with
        | error e => exact Option.some_ne_none _
        | ok lp =>
          dsimp only
          cases bytesToString? lp.1 with
          | some s => exact Option.some_ne_none _
          | none => exact Option.some_ne_none _
      · rw [if_neg hb1]
        by_cases hb2 : b = 45
        · rw [if_pos hb2]
          cases getLine data p1 with
          | error e => exact Option.some_ne_none _
          | ok lp =>
            dsimp only
            cases bytesToString? lp.1 with
            | some s => exact Option.some_ne_none _
            | none => exact Option.some_ne_none _
        · rw [if_neg hb2]
          by_cases hb3 : b = 58
          · rw [if_pos hb3]
            cases getDecimal data p1 with
            | error e => exact Option.some_ne_none _
            | ok np => exact Option.some_ne_none _
          · rw [if_neg hb3]
            by_cases hb4 : b = 36
            · rw [if_pos hb4]
              cases peekU8 data p1 with
              | error e => exact Option.some_ne_none _
              | ok c =>
                dsimp only
                by_cases hc : c = 45
                · rw [if_pos hc]
                  cases getLine data p1 with
                  | error e => exact Option.some_ne_none _
                  | ok lp =>
                    dsimp only
                    by_cases hline : lp.1 = [45, 49]
                    · rw [if_pos hline]; exact Option.some_ne_none _
                    · rw [if_neg hline]; exact Option.some_ne_none _
                · rw [if_neg hc]
                  cases getDecimal data p1 with
                  | error e => exact Option.some_ne_none _
                  | ok np =>
                    dsimp only
                    by_cases hrem : data.length - np.2 < np.1 + 2
                    · rw [if_pos hrem]; exact Option.some_ne_none _
                    · rw [if_neg hrem]; exact Option.some_ne_none _
            · rw [if_neg hb4]
              by_cases hb5 : b = 42
              · rw [if_pos hb5]
                cases hd : getDecimal data p1 with
                | error e => exact Option.some_ne_none _
                | ok np =>
                  obtain ⟨len, p2⟩ := np
                  dsimp only
                  have h1 := getDecimal_ok hd
                  have hnn : runManyP (parseF n data) len p2 ≠ none := by
                    refine runManyP_not_none ?_ ?_ len p2 (le_refl _)
                    · intro q hq
                      exact ih data q (by omega)
                    · intro q f r hq
                      exact (parseF_progress n data q f r hq).1
                  cases hm : runManyP (parseF n data) len p2 with
                  | none => exact absurd hm hnn
                  | some out =>
                    cases out with
                    | err e => exact Option.some_ne_none _
                    | panic => exact Option.some_ne_none _
                    | ok fs q => exact Option.some_ne_none _
              · rw [if_neg hb5]
                exact Option.some_ne_none _

/-- `Frame.check` never exhausts its fuel: the wrapper is a total
embedding of `Frame::check`. -/
theorem check_isSome (data : List Nat) : (Frame.check data).isSome := by
  have := checkF_sufficient (data.length + 1) data 0 (by omega)
  unfold Frame.check
  exact Option.ne_none_iff_isSome.mp this

/-- `Frame.parse` never exhausts its fuel: the wrapper is a total
embedding of `Frame::parse`. -/
theorem parse_isSome (data : List Nat) : (Frame.parse data).isSome := by
  have := parseF_sufficient (data.length + 1) data 0 (by omega)
  unfold Frame.parse
  exact Option.ne_none_iff_isSome.mp this

/-! ## Facts about the `Parse` cursor and the sub-loop helpers -/

theorem pNextString_tail {f : Frame} {rest r : List Frame} {s : String}
    (h : pNextString (f :: rest) = .ok (s, r)) : r = rest := by
  cases f <;> simp [pNextString] at h <;> try exact h.2.symm
  case bulk b =>
    cases hd : bytesToString? b <;> rw [hd] at h <;> simp at h
    exact h.2.symm

theorem tokenString_ok {f : Frame} {s : String} (rest : List Frame)
    (h : tokenString? f = some s) : pNextString (f :: rest) = .ok (s, rest) := by
  cases f <;> simp [tokenString?] at h <;> simp [pNextString]
  · exact h
  case bulk b => rw [h]

theorem tokenString_none {f : Frame} (rest : List Frame)
    (h : tokenString? f = none) : ∃ m, pNextString (f :: rest) = .error (.other m) := by
  cases f <;> simp [tokenString?] at h <;> simp [pNextString]
  case bulk b => rw [h]; exact ⟨_, rfl⟩

theorem valueToken_ok {f : Frame} (rest : List Frame)
    (h : isValueToken f = true) : ∃ bs, pNextBytes (f :: rest) = .ok (bs, rest) := by
  cases f <;> simp [isValueToken] at h <;> simp [pNextBytes]

theorem valueToken_none {f : Frame} (rest : List Frame)
    (h : isValueToken f = false) : ∃ m, pNextBytes (f :: rest) = .error (.other m) := by
  cases f <;> simp [isValueToken] at h <;> simp [pNextBytes]

theorem intToken_ok {f : Frame} (rest : List Frame)
    (h : isIntToken f = true) : ∃ v, pNextInt (f :: rest) = .ok (v, rest) := by
  cases f <;> simp [isIntToken] at h <;> simp [pNextInt]
  case simple s => obtain ⟨v, hv⟩ := Option.isSome_iff_exists.mp h; rw [hv]; exact ⟨v, rfl⟩
  case bulk b => obtain ⟨v, hv⟩ := Option.isSome_iff_exists.mp h; rw [hv]; exact ⟨v, rfl⟩

theorem intToken_none {f : Frame} (rest : List Frame)
    (h : isIntToken f = false) : ∃ m, pNextInt (f :: rest) = .error (.other m) := by
  cases f <;> simp [isIntToken] at h <;> simp [pNextInt]
  case simple s => rw [h]; exact ⟨_, rfl⟩
  case bulk b => rw [h]; exact ⟨_, rfl⟩

/-! ### Facts about the subscription map (`StreamMap` model) -/

theorem smKeys_cons (p : String × Nat) (rest : List (String × Nat)) :
    smKeys (p :: rest) = p.1 :: smKeys rest := rfl

/-- Under the map's no-duplicate-keys discipline, erasing the first hit
equals filtering the key out. -/
theorem smRemove_eq_filter : ∀ {subs : List (String × Nat)} {ch : String},
    (smKeys subs).Nodup → smRemove subs ch = subs.filter (fun q => q.1 != ch) := by
  intro subs
  induction subs with
  | nil => intro ch _; rfl
  | cons p rest ih =>
    intro ch hnd
    rw [smKeys_cons, List.nodup_cons] at hnd
    rw [smRemove, List.eraseP_cons, List.filter_cons]
    by_cases he : p.1 = ch
    · rw [show (p.1 == ch) = true by simp [he]]
      rw [show (p.1 != ch) = false by simp [he]]
      simp only [cond_true, if_neg Bool.false_ne_true]
      symm
      rw [List.filter_eq_self]
      intro a ha
      simp only [bne_iff_ne, ne_eq]
      intro hae
      exact hnd.1 (by
        rw [← he] at hae
        rw [← hae]
        exact List.mem_map_of_mem Prod.fst ha)
    · rw [show (p.1 == ch) = false by simp [he]]
      rw [show (p.1 != ch) = true by simp [he]]
      simp only [cond_false, if_pos rfl]
      rw [← ih hnd.2]
      rfl

theorem smKeys_filter (subs : List (String × Nat)) (ch : String) :
    smKeys (subs.filter (fun q => q.1 != ch)) = (smKeys subs).filter (fun k => k != ch) := by
  induction subs with
  | nil => rfl
  | cons p rest ih =>
    rw [List.filter_cons, smKeys_cons, List.filter_cons]
    by_cases he : (p.1 != ch) = true
    · rw [if_pos he, smKeys_cons, ih, if_pos he]
    · rw [if_neg he, ih, if_neg he]

theorem smRemove_keys (subs : List (String × Nat)) (ch : String)
    (hnd : (smKeys subs).Nodup) :
    smKeys (smRemove subs ch) = (smKeys subs).filter (fun k => k != ch) := by
  rw [smRemove_eq_filter hnd, smKeys_filter]

theorem smRemove_keys_mem {subs : List (String × Nat)} {ch : String}
    (hnd : (smKeys subs).Nodup) (c : String) :
    c ∈ smKeys (smRemove subs ch) ↔ (c ∈ smKeys subs ∧ c ≠ ch) := by
  rw [smRemove_keys subs ch hnd, List.mem_filter]
  simp [bne_iff_ne]

theorem smRemove_nodup {subs : List (String × Nat)} {ch : String}
    (hnd : (smKeys subs).Nodup) : (smKeys (smRemove subs ch)).Nodup := by
  rw [smRemove_keys subs ch hnd]
  exact hnd.filter _

theorem smFilter_split_length : ∀ (l : List (String × Nat)) (ch : String),
    l.length = (l.filter (fun q => q.1 != ch)).length + (l.filter (fun q => q.1 == ch)).length := by
  intro l ch
  induction l with
  | nil => rfl
  | cons p rest ih =>
    rw [List.filter_cons, List.filter_cons]
    by_cases he : p.1 = ch <;> simp [he] <;> omega

theorem smFilter_key_length_one : ∀ {subs : List (String × Nat)} {ch : String},
    (smKeys subs).Nodup → ch ∈ smKeys subs →
    (subs.filter (fun q => q.1 == ch)).length = 1 := by
  intro subs
  induction subs with
  | nil => intro ch _ h; cases h
  | cons p rest ih =>
    intro ch hnd hmem
    rw [smKeys_cons, List.nodup_cons] at hnd
    rw [List.filter_cons]
    by_cases he : p.1 = ch
    · rw [show (p.1 == ch) = true by simp [he]]
      have hnil : List.filter (fun q => q.1 == ch) rest = [] := by
        rw [List.filter_eq_nil_iff]
        intro a ha
        simp only [beq_iff_eq]
        intro hae
        exact hnd.1 (by
          rw [← he] at hae
          rw [← hae]
          exact List.mem_map_of_mem Prod.fst ha)
      simp [hnil]
    · rw [show (p.1 == ch) = false by simp [he]]
      rw [if_neg Bool.false_ne_true]
      refine ih hnd.2 ?_
      rw [smKeys_cons, List.mem_cons] at hmem
      rcases hmem with h1 | h1
      · exact absurd h1.symm he
      · exact h1

theorem smRemove_length_of_mem {subs : List (String × Nat)} {ch : String}
    (hnd : (smKeys subs).Nodup) (hmem : ch ∈ smKeys subs) :
    (smRemove subs ch).length + 1 = subs.length := by
  rw [smRemove_eq_filter hnd]
  have h1 := smFilter_split_length subs ch
  have h2 := smFilter_key_length_one hnd hmem
  omega

theorem smLookup_append_last : ∀ {l : List (String × Nat)} {ch : String} {rx : Nat},
    ch ∉ smKeys l → smLookup (l ++ [(ch, rx)]) ch = some rx := by
  intro l
  induction l with
  | nil => intro ch rx _; simp [smLookup]
  | cons p rest ih =>
    intro ch rx h
    rw [smKeys_cons, List.mem_cons] at h
    push_neg at h
    rw [List.cons_append, smLookup]
    rw [if_neg (fun he => h.1 he.symm)]
    exact ih h.2

theorem smRemove_not_mem_keys {subs : List (String × Nat)} {ch : String}
    (hnd : (smKeys subs).Nodup) : ch ∉ smKeys (smRemove subs ch) := by
  intro hx
  exact ((smRemove_keys_mem hnd ch).mp hx).2 rfl

theorem smInsert_keys_mem {subs : List (String × Nat)} {ch : String} {rx : Nat}
    (hnd : (smKeys subs).Nodup) (c : String) :
    c ∈ smKeys (smInsert subs ch rx) ↔ (c ∈ smKeys subs ∨ c = ch) := by
  have : smKeys (smInsert subs ch rx) = smKeys (smRemove subs ch) ++ [ch] := by
    simp [smInsert, smKeys]
  rw [this, List.mem_append, smRemove_keys_mem hnd c, List.mem_singleton]
  constructor
  · rintro (⟨h1, _⟩ | h1)
    · exact Or.inl h1
    · exact Or.inr h1
  · rintro (h1 | h1)
    · by_cases he : c = ch
      · exact Or.inr he
      · exact Or.inl ⟨h1, he⟩
    · exact Or.inr h1

theorem smInsert_nodup {subs : List (String × Nat)} {ch : String} {rx : Nat}
    (hnd : (smKeys subs).Nodup) : (smKeys (smInsert subs ch rx)).Nodup := by
  have heq : smKeys (smInsert subs ch rx) = smKeys (smRemove subs ch) ++ [ch] := by
    simp [smInsert, smKeys]
  rw [heq, List.nodup_append]
  refine ⟨smRemove_nodup hnd, List.nodup_singleton _, ?_⟩
  intro a ha
  rw [List.mem_singleton]
  intro hb
  subst hb
  exact smRemove_not_mem_keys hnd ha

theorem smInsert_length_of_mem {subs : List (String × Nat)} {ch : String} (rx : Nat)
    (hnd : (smKeys subs).Nodup) (hmem : ch ∈ smKeys subs) :
    (smInsert subs ch rx).length = subs.length := by
  have h1 := smRemove_length_of_mem hnd hmem
  simp only [smInsert, List.length_append, List.length_cons, List.length_nil]
  omega

theorem smInsert_lookup {subs : List (String × Nat)} {ch : String} {rx : Nat}
    (hnd : (smKeys subs).Nodup) : smLookup (smInsert subs ch rx) ch = some rx :=
  smLookup_append_last (smRemove_not_mem_keys hnd)

/-! ### The unsubscribe loop -/

theorem unsubLoop_length : ∀ (names : List String) (subs : List (String × Nat)),
    (unsubLoop names subs).2.length = names.length := by
  intro names
  induction names with
  | nil => intro subs; rfl
  | cons n rest ih =>
    intro subs
    simp only [unsubLoop, List.length_cons]
    rw [ih]

theorem unsubLoop_subs : ∀ (names : List String) (subs : List (String × Nat)),
    (smKeys subs).Nodup →
    (smKeys (unsubLoop names subs).1).Nodup ∧
      (∀ c, c ∈ smKeys (unsubLoop names subs).1 ↔ (c ∈ smKeys subs ∧ c ∉ names)) := by
  intro names
  induction names with
  | nil =>
    intro subs hnd
    exact ⟨hnd, fun c => by simp [unsubLoop]⟩
  | cons n rest ih =>
    intro subs hnd
    simp only [unsubLoop]
    have h1 := ih (smRemove subs n) (smRemove_nodup hnd)
    refine ⟨h1.1, fun c => ?_⟩
    rw [h1.2 c, smRemove_keys_mem hnd c, List.mem_cons]
    constructor
    · rintro ⟨⟨hc1, hc2⟩, hc3⟩
      exact ⟨hc1, by rintro (h | h); exact hc2 h; exact hc3 h⟩
    · rintro ⟨hc1, hc2⟩
      push_neg at hc2
      exact ⟨⟨hc1, hc2.1⟩, hc2.2⟩

theorem unsubLoop_acks : ∀ (names : List String) (subs : List (String × Nat)) (k : Nat)
    (n : String), names.Nodup → (∀ m ∈ names, m ∈ smKeys subs) → (smKeys subs).Nodup →
    names.get? k = some n →
    (unsubLoop names subs).2.get? k = some (mkUnsubscribeFrame n (subs.length - (k + 1))) := by
  intro names
  induction names with
  | nil => intro subs k n _ _ _ hk; simp at hk
  | cons n0 rest ih =>
    intro subs k n hnodup hmem hnd hk
    have hn0 : n0 ∈ smKeys subs := hmem n0 (List.mem_cons_self n0 rest)
    have hlen := smRemove_length_of_mem hnd hn0
    rw [List.nodup_cons] at hnodup
    cases k with
    | zero =>
      rw [List.get?_cons_zero] at hk
      cases hk
      simp only [unsubLoop, List.get?_cons_zero, Option.some.injEq]
      congr 1
      omega
    | succ k2 =>
      rw [List.get?_cons_succ] at hk
      simp only [unsubLoop, List.get?_cons_succ]
      have hm2 : ∀ m ∈ rest, m ∈ smKeys (smRemove subs n0) := by
        intro m hm
        refine (smRemove_keys_mem hnd m).mpr ⟨hmem m (List.mem_cons_of_mem n0 hm), ?_⟩
        intro he
        exact hnodup.1 (he ▸ hm)
      have := ih (smRemove subs n0) k2 n hnodup.2 hm2 (smRemove_nodup hnd) hk
      rw [this]
      congr 2
      omega

/-! ## The claims

Each claim of the specification audit gets exactly one theorem below
(plus, where required, a closed witness or counterexample theorem). -/

/-- Concrete state used by the C1 theorem: one entry `"a"` with id 0 and
deadline 5, so `expirations` is non-empty. -/
def stC1 : StateM :=
  { entries := [("a", { id := 0, data := [9], expiresAt := some 5 })],
    pubSub := [],
    expirations := [((5, 0), "a")],
    nextId := 1,
    shutdown := false }

/-- C1: the claim states that `set(key, value, Some(d))` always completes
normally and signals `background_wake` exactly when the new deadline is
strictly earlier than the previous minimum **or when `expirations` held
no deadline at all**.  The code violates the highlighted case:
`state.next_expiration().map(|e| e > when).unwrap()` (src/db.rs lines
205-208) unwraps `None` and panics whenever `expirations` is empty — in
particular on the very first SET with a TTL on a fresh `Db` (the model
returns `none` for the panic).  The remaining conjuncts confirm the
claimed behaviour whenever `expirations` is non-empty: signal exactly
once iff the new deadline is strictly earlier than the previous minimum,
and never signal without an expiration argument. -/
theorem claim_C1_set_first_ttl_panics :
    dbSet { entries := [], pubSub := [], expirations := [], nextId := 0, shutdown := false }
      "foo" [1] (some 10) 0 = none ∧
    (dbSet stC1 "b" [2] (some 3) 0).map Prod.snd = some true ∧
    (dbSet stC1 "b" [2] (some 7) 0).map Prod.snd = some false ∧
    (dbSet stC1 "b" [2] (some 5) 0).map Prod.snd = some false ∧
    (dbSet stC1 "b" [2] none 0).map Prod.snd = some false := by
  refine ⟨rfl, rfl, rfl, rfl, rfl⟩

/-- C2, counterexample: on the bytes `"$-abc"` ([36,45,97,98,99]),
`Frame::check` succeeds (its `$-` arm blindly skips 4 bytes) while
`Frame::parse` fails with `Incomplete` (its `$-` arm calls `get_line`,
and there is no CRLF).  This refutes both "either both succeed … or both
fail in the same way" and, specifically, "there exists no input on which
check succeeds and parse then fails with Incomplete". -/
theorem claim_C2_counterexample :
    Frame.check [36, 45, 97, 98, 99] = some (.ok 5) ∧
    Frame.parse [36, 45, 97, 98, 99] = some (.err .incomplete) :=
  ⟨rfl, rfl⟩

/-- C2 (amended): the surviving direction of the claim.  Whenever
`parse` succeeds, `check` succeeds from the same start position and
leaves the cursor at exactly the same position (they consume the same
bytes); but `check` success does not imply `parse` success — `parse` may
still fail with `Protocol` (invalid UTF-8, a `$-` line other than `-1`)
or even with `Incomplete` (a `$-` with no CRLF in the buffer).  Stated
for every fuel (first conjunct) and for the top-level entry points
(second conjunct). -/
theorem claim_C2_parse_refines_check :
    (∀ fuel data pos f p, parseF fuel data pos = some (.ok f p) →
      checkF fuel data pos = some (.ok p)) ∧
    (∀ data f p, Frame.parse data = some (.ok f p) → Frame.check data = some (.ok p)) :=
  ⟨parseF_refines_checkF,
   fun data f p h => parseF_refines_checkF (data.length + 1) data 0 f p h⟩

/-- Witness for C2 at the concrete input `"+OK\r\n"`. -/
theorem claim_C2_witness :
    Frame.parse [43, 79, 75, 13, 10] = some (.ok (.simple "OK") 5) ∧
    Frame.check [43, 79, 75, 13, 10] = some (.ok 5) :=
  ⟨by with_unfolding_all rfl,
   claim_C2_parse_refines_check.2 [43, 79, 75, 13, 10] (.simple "OK") 5
     (by with_unfolding_all rfl)⟩

/-- C3: on an input whose first byte is not one of `+ - : $ *` (here
`'#'` = 35), `Frame::check` fails with a `Protocol` error (not
`Incomplete`) — that half of the claim holds — but `Frame::parse` hits
the `unimplemented!()` arm (src/frame.rs line 198) and panics, aborting
the process instead of failing with `Protocol`.  The source's own
comment (lines 193-197) says this is wrong and should only affect the
current connection, which is what the spec requires. -/
theorem claim_C3_unknown_type_byte :
    Frame.check [35] = some (.err (.other "protocol error; invalid frame type byte `35`")) ∧
    Frame.parse [35] = some .panic :=
  ⟨rfl, rfl⟩

/-- C6: a top-level `Unsubscribe` hits the dispatch arm of
`Command::apply` that returns
``Err("`Unsubscribe` is unsupported in this context")`` without writing
anything (src/cmd.rs line 109); the connection handler — `src/server.rs`
is declared in lib.rs but absent from the sources, so it is modelled
from the spec's error table — replies with an `Error` frame carrying the
message and keeps serving the connection. -/
theorem claim_C6_unsubscribe_unsupported_reply (u : UnsubscribeCmd) :
    Command.applyDispatch (.unsubscribe u) =
      .unsupported "`Unsubscribe` is unsupported in this context" ∧
    serverUnsupportedReply (.unsubscribe u) =
      some ([Frame.error "`Unsubscribe` is unsupported in this context"], true) :=
  ⟨rfl, rfl⟩

/-- C8, counterexample: with subscription set `{"a"}`, an UNSUBSCRIBE
naming only `"b"` removes nothing (the set is unchanged) and yet writes
one unsubscribe ack — refuting "exactly one ack frame per channel
*removed* from the subscription set". -/
theorem claim_C8_counterexample :
    handleCommand (.unsubscribe ⟨["b"]⟩) [] [("a", 0)] =
      ([], [("a", 0)], [mkUnsubscribeFrame "b" 1]) :=
  rfl

/-- C8 (amended): the sub-loop writes exactly one unsubscribe ack per
channel *named* (after defaulting an empty list to all currently
subscribed channels), whether or not that channel was in the set; each
ack carries the connection's subscription count after that removal
attempt.  Conjuncts: the pending-subscribe list is untouched; one ack
per name; the resulting set is the old set minus the named channels; and
when the names are distinct and all present, the k-th ack carries
`subs.length - (k+1)`. -/
theorem claim_C8_unsubscribe_acks (uc : UnsubscribeCmd) (pending : List String)
    (subs : List (String × Nat)) :
    (handleCommand (.unsubscribe uc) pending subs).1 = pending ∧
    (handleCommand (.unsubscribe uc) pending subs).2.2.length =
      (if uc.channels.isEmpty then smKeys subs else uc.channels).length ∧
    ((smKeys subs).Nodup → ∀ c,
      c ∈ smKeys (handleCommand (.unsubscribe uc) pending subs).2.1 ↔
        (c ∈ smKeys subs ∧
          c ∉ (if uc.channels.isEmpty then smKeys subs else uc.channels))) ∧
    (∀ k n, (if uc.channels.isEmpty then smKeys subs else uc.channels).Nodup →
      (∀ m ∈ (if uc.channels.isEmpty then smKeys subs else uc.channels), m ∈ smKeys subs) →
      (smKeys subs).Nodup →
      (if uc.channels.isEmpty then smKeys subs else uc.channels).get? k = some n →
      (handleCommand (.unsubscribe uc) pending subs).2.2.get? k =
        some (mkUnsubscribeFrame n (subs.length - (k + 1)))) := by
  refine ⟨rfl, unsubLoop_length _ _, ?_, ?_⟩
  · intro hnd c
    exact (unsubLoop_subs _ subs hnd).2 c
  · intro k n h1 h2 h3 h4
    exact unsubLoop_acks _ subs k n h1 h2 h3 h4

/-- Witness for C8 at a concrete subscription set `{a, b}` and the
UNSUBSCRIBE-all form (empty channel list). -/
theorem claim_C8_witness :
    ((smKeys [("a", 0), ("b", 1)]).Nodup ∧
      (if (⟨[]⟩ : UnsubscribeCmd).channels.isEmpty
        then smKeys [("a", 0), ("b", 1)] else (⟨[]⟩ : UnsubscribeCmd).channels).get? 0 =
          some "a") ∧
    (handleCommand (.unsubscribe ⟨[]⟩) [] [("a", 0), ("b", 1)]).2.2.get? 0 =
      some (mkUnsubscribeFrame "a" 1) :=
  ⟨⟨by decide, by decide⟩,
    (claim_C8_unsubscribe_acks ⟨[]⟩ [] [("a", 0), ("b", 1)]).2.2.2 0 "a"
      (by decide) (by decide) (by decide) (by decide)⟩

/-- C9: inside the subscription sub-loop, every well-formed command
other than SUBSCRIBE / UNSUBSCRIBE is not executed (`handle_command`
takes no database handle): it is turned into `Unknown::new(get_name())`
whose reply is exactly `Error("ERR unknown command '<n>'")` with `<n>`
the dispatch-table name — `"pub"` for a `Publish` command, not
`"publish"` — and the sub-loop state is unchanged, so the loop
continues. -/
theorem claim_C9_subloop_unknown_reply :
    ∀ (pending : List String) (subs : List (String × Nat)),
    (∀ g : GetCmd, handleCommand (.get g) pending subs =
      (pending, subs, [Frame.error "ERR unknown command 'get'"])) ∧
    (∀ c : PublishCmd, handleCommand (.publish c) pending subs =
      (pending, subs, [Frame.error "ERR unknown command 'pub'"])) ∧
    (∀ c : SetCmd, handleCommand (.set c) pending subs =
      (pending, subs, [Frame.error "ERR unknown command 'set'"])) ∧
    (∀ c : PingCmd, handleCommand (.ping c) pending subs =
      (pending, subs, [Frame.error "ERR unknown command 'ping'"])) ∧
    (∀ c : UnknownCmd, handleCommand (.unknown c) pending subs =
      (pending, subs, [unknownReply c.commandName])) := by
  intro pending subs
  exact ⟨fun g => rfl, fun c => rfl, fun c => rfl, fun c => rfl, fun c => rfl⟩

/-- C10: `subscribe_to_channel` on a channel already in the subscription
set replaces that channel's receiver in the `StreamMap` (the lookup
afterwards yields the new receiver) instead of adding a second stream:
the key set and the total count are unchanged, exactly one subscribe ack
is written and it carries that unchanged total, and the no-duplicate
invariant is preserved — also by inserts of fresh channels (second
conjunct), so the subscription set never holds the same channel
twice. -/
theorem claim_C10_subscribe_idempotent :
    (∀ (subs : List (String × Nat)) (ch : String) (rx : Nat),
      (smKeys subs).Nodup → ch ∈ smKeys subs →
      (subscribeToChannel ch rx subs).1.length = subs.length ∧
      (∀ c, c ∈ smKeys (subscribeToChannel ch rx subs).1 ↔ c ∈ smKeys subs) ∧
      smLookup (subscribeToChannel ch rx subs).1 ch = some rx ∧
      (subscribeToChannel ch rx subs).2 = mkSubscribeFrame ch subs.length ∧
      (smKeys (subscribeToChannel ch rx subs).1).Nodup) ∧
    (∀ (subs : List (String × Nat)) (ch : String) (rx : Nat),
      (smKeys subs).Nodup → (smKeys (smInsert subs ch rx)).Nodup) := by
  constructor
  · intro subs ch rx hnd hmem
    have hlen := smInsert_length_of_mem rx hnd hmem
    refine ⟨hlen, ?_, smInsert_lookup hnd, ?_, smInsert_nodup hnd⟩
    · intro c
      rw [show (subscribeToChannel ch rx subs).1 = smInsert subs ch rx from rfl]
      rw [smInsert_keys_mem hnd c]
      constructor
      · rintro (h | h)
        · exact h
        · exact h ▸ hmem
      · exact Or.inl
    · show mkSubscribeFrame ch (smInsert subs ch rx).length = mkSubscribeFrame ch subs.length
      rw [hlen]
  · intro subs ch rx hnd
    exact smInsert_nodup hnd

/-- Witness for C10: re-subscribing `"a"` (already present with receiver
0) with a fresh receiver 7 keeps the set at size 2 and acks with 2. -/
theorem claim_C10_witness :
    ((smKeys [("a", 0), ("b", 1)]).Nodup ∧ "a" ∈ smKeys [("a", 0), ("b", 1)]) ∧
    (subscribeToChannel "a" 7 [("a", 0), ("b", 1)]).1.length = 2 ∧
    smLookup (subscribeToChannel "a" 7 [("a", 0), ("b", 1)]).1 "a" = some 7 ∧
    (subscribeToChannel "a" 7 [("a", 0), ("b", 1)]).2 = mkSubscribeFrame "a" 2 :=
  ⟨⟨by decide, by decide⟩,
    (claim_C10_subscribe_idempotent.1 [("a", 0), ("b", 1)] "a" 7 (by decide) (by decide)).1,
    (claim_C10_subscribe_idempotent.1 [("a", 0), ("b", 1)] "a" 7 (by decide) (by decide)).2.2.1,
    (claim_C10_subscribe_idempotent.1 [("a", 0), ("b", 1)] "a" 7 (by decide) (by decide)).2.2.2.1⟩

/-! ### Claim C7: the SET grammar -/

theorem pNextString_nil : pNextString [] = .error .endOfStream := rfl

theorem pNextInt_nil : pNextInt [] = .error .endOfStream := rfl

theorem setParseOkB_eq_spec : ∀ args : List Frame, setParseOkB args = setArgsSpec args := by
  intro args
  match args with
  | [] => rfl
  | [k] =>
    cases hk : tokenString? k with
    | some s =>
      simp [setParseOkB, SetCmd.parseFrames, tokenString_ok ([] : List Frame) hk,
        pNextBytes, setArgsSpec]
    | none =>
      obtain ⟨m, hm⟩ := tokenString_none ([] : List Frame) hk
      simp [setParseOkB, SetCmd.parseFrames, hm, setArgsSpec]
  | k :: v :: rest =>
    cases hk : tokenString? k with
    | none =>
      obtain ⟨m, hm⟩ := tokenString_none (v :: rest) hk
      have hks : isStringToken k = false := by simp [isStringToken, hk]
      simp [setParseOkB, SetCmd.parseFrames, hm, setArgsSpec, hks]
    | some s =>
      have hpk := tokenString_ok (v :: rest) hk
      have hks : isStringToken k = true := by simp [isStringToken, hk]
      cases hv : isValueToken v with
      | false =>
        obtain ⟨m, hm⟩ := valueToken_none rest hv
        simp [setParseOkB, SetCmd.parseFrames, hpk, hm, setArgsSpec, hv]
      | true =>
        obtain ⟨bs, hbs⟩ := valueToken_ok rest hv
        match rest with
        | [] =>
          simp [setParseOkB, SetCmd.parseFrames, hpk, hbs, pNextString_nil, pFinish,
            setArgsSpec, hks, hv]
        | t :: rest2 =>
          cases ht : tokenString? t with
          | none =>
            obtain ⟨m2, hm2⟩ := tokenString_none rest2 ht
            have hex : isExPxToken t = false := by simp [isExPxToken, ht]
            match rest2 with
            | [] => simp [setParseOkB, SetCmd.parseFrames, hpk, hbs, hm2, setArgsSpec]
            | [n] => simp [setParseOkB, SetCmd.parseFrames, hpk, hbs, hm2, setArgsSpec, hex]
            | n :: x :: r3 =>
              simp [setParseOkB, SetCmd.parseFrames, hpk, hbs, hm2, setArgsSpec]
          | some ts =>
            have hpt := tokenString_ok rest2 ht
            by_cases e1 : asciiUpper ts = "EX"
            · match rest2 with
              | [] =>
                simp [setParseOkB, SetCmd.parseFrames, hpk, hbs, hpt, e1, pNextInt_nil,
                  setArgsSpec]
              | n :: rest3 =>
                cases hi : isIntToken n with
                | false =>
                  obtain ⟨m3, hm3⟩ := intToken_none rest3 hi
                  match rest3 with
                  | [] =>
                    simp [setParseOkB, SetCmd.parseFrames, hpk, hbs, hpt, e1, hm3,
                      setArgsSpec, hi]
                  | x :: r4 =>
                    simp [setParseOkB, SetCmd.parseFrames, hpk, hbs, hpt, e1, hm3,
                      setArgsSpec]
                | true =>
                  obtain ⟨vi, hvi⟩ := intToken_ok rest3 hi
                  match rest3 with
                  | [] =>
                    have hexp : isExPxToken t = true := by
                      simp [isExPxToken, ht, e1]
                    simp [setParseOkB, SetCmd.parseFrames, hpk, hbs, hpt, e1, hvi,
                      pFinish, setArgsSpec, hks, hv, hexp, hi]
                  | x :: r4 =>
                    simp [setParseOkB, SetCmd.parseFrames, hpk, hbs, hpt, e1, hvi,
                      pFinish, setArgsSpec]
            · by_cases e2 : asciiUpper ts = "PX"
              · match rest2 with
                | [] =>
                  simp [setParseOkB, SetCmd.parseFrames, hpk, hbs, hpt, e1, e2, pNextInt_nil,
                    setArgsSpec]
                | n :: rest3 =>
                  cases hi : isIntToken n with
                  | false =>
                    obtain ⟨m3, hm3⟩ := intToken_none rest3 hi
                    match rest3 with
                    | [] =>
                      simp [setParseOkB, SetCmd.parseFrames, hpk, hbs, hpt, e1, e2, hm3,
                        setArgsSpec, hi]
                    | x :: r4 =>
                      simp [setParseOkB, SetCmd.parseFrames, hpk, hbs, hpt, e1, e2, hm3,
                        setArgsSpec]
                  | true =>
                    obtain ⟨vi, hvi⟩ := intToken_ok rest3 hi
                    match rest3 with
                    | [] =>
                      have hexp : isExPxToken t = true := by
                        simp [isExPxToken, ht, e2]
                      simp [setParseOkB, SetCmd.parseFrames, hpk, hbs, hpt, e1, e2, hvi,
                        pFinish, setArgsSpec, hks, hv, hexp, hi]
                    | x :: r4 =>
                      simp [setParseOkB, SetCmd.parseFrames, hpk, hbs, hpt, e1, e2, hvi,
                        pFinish, setArgsSpec]
              · have hex : isExPxToken t = false := by
                  simp [isExPxToken, ht, e1, e2]
                match rest2 with
                | [] =>
                  simp [setParseOkB, SetCmd.parseFrames, hpk, hbs, hpt, e1, e2, setArgsSpec]
                | [n] =>
                  simp [setParseOkB, SetCmd.parseFrames, hpk, hbs, hpt, e1, e2,
                    setArgsSpec, hex]
                | n :: x :: r3 =>
                  simp [setParseOkB, SetCmd.parseFrames, hpk, hbs, hpt, e1, e2, setArgsSpec]

theorem fromFrame_set_dispatch (nameTok : Frame) (ns : String) (args : List Frame)
    (h1 : tokenString? nameTok = some ns) (h2 : asciiLower ns = "set") :
    parsesAsSet (.array (nameTok :: args)) = setParseOkB args := by
  unfold parsesAsSet Command.fromFrame Parse.new
  dsimp only
  rw [tokenString_ok args h1]
  dsimp only
  rw [h2]
  rw [if_neg (by decide), if_neg (by decide), if_pos rfl]
  unfold setParseOkB
  cases hp : SetCmd.parseFrames args with
  | error e => rfl
  | ok cr =>
    obtain ⟨c, r⟩ := cr
    dsimp only
    cases hf : pFinish r with
    | error e => rfl
    | ok u => rfl

/-- C7: parsing a SET command succeeds exactly when its arguments after
the command name are a key string, a value, and then either nothing, or
one case-insensitive `EX`/`PX` token followed by an unsigned 64-bit
integer with nothing after it (first conjunct, for any frame whose first
token lowercases to `"set"`); and executing a parsed `Set` replies
`Simple("OK")` whenever `db.set` completes (second conjunct; the reply
is written right after `db.set` returns, src/cmd/set.rs lines
94-104). -/
theorem claim_C7_set_grammar :
    (∀ (nameTok : Frame) (ns : String) (args : List Frame),
      tokenString? nameTok = some ns → asciiLower ns = "set" →
      parsesAsSet (.array (nameTok :: args)) = setArgsSpec args) ∧
    (∀ (c : SetCmd) (s : StateM) (now : Nat) (out : StateM × Frame),
      SetCmd.apply c s now = some out → out.2 = Frame.simple "OK") := by
  constructor
  · intro nameTok ns args h1 h2
    rw [fromFrame_set_dispatch nameTok ns args h1 h2, setParseOkB_eq_spec]
  · intro c s now out h
    unfold SetCmd.apply at h
    cases hd : dbSet s c.key c.value c.expire now with
    | none => rw [hd] at h; cases h
    | some sb => rw [hd] at h; cases h; rfl

/-- Witness for C7: the RESP array `["set", "k", "v", "px", "70"]` (with
`"set"` as a Bulk token) parses as a SET and matches the spec shape, and
a concrete `Set` execution replies `Simple("OK")`. -/
theorem claim_C7_witness :
    (tokenString? (.bulk (strBytes "set")) = some "set" ∧ asciiLower "set" = "set") ∧
    parsesAsSet (.array [.bulk (strBytes "set"), .bulk [107], .bulk [118],
      .bulk [112, 120], .bulk [55, 48]]) =
      setArgsSpec [.bulk [107], .bulk [118], .bulk [112, 120], .bulk [55, 48]] ∧
    SetCmd.apply ⟨"k", [118], none⟩
      { entries := [], pubSub := [], expirations := [], nextId := 0, shutdown := false } 0 =
      some ({ entries := [("k", { id := 0, data := [118], expiresAt := none })],
              pubSub := [], expirations := [], nextId := 1, shutdown := false },
            Frame.simple "OK") ∧
    (({ entries := [("k", { id := 0, data := [118], expiresAt := none })],
        pubSub := [], expirations := [], nextId := 1, shutdown := false } : StateM),
      (Frame.simple "OK")).2 = Frame.simple "OK" := by
  refine ⟨⟨by with_unfolding_all rfl, rfl⟩, ?_, by with_unfolding_all rfl, ?_⟩
  · exact claim_C7_set_grammar.1 (.bulk (strBytes "set")) "set" _
      (by with_unfolding_all rfl) rfl
  · exact claim_C7_set_grammar.2 ⟨"k", [118], none⟩
      { entries := [], pubSub := [], expirations := [], nextId := 0, shutdown := false } 0
      _ (by with_unfolding_all rfl)

/-! ### Facts about the store model (claims C4, C5) -/

theorem keyLt_irrefl (a : Nat × Nat) : keyLt a a = false := by
  simp [keyLt]

theorem keyLt_trans {a b c : Nat × Nat} (h1 : keyLt a b = true) (h2 : keyLt b c = true) :
    keyLt a c = true := by
  simp [keyLt] at h1 h2 ⊢
  omega

theorem keyLt_cases (a b : Nat × Nat) : keyLt a b = true ∨ a = b ∨ keyLt b a = true := by
  rcases a with ⟨a1, a2⟩
  rcases b with ⟨b1, b2⟩
  simp [keyLt, Prod.ext_iff]
  omega

theorem keyLt_ne {a b : Nat × Nat} (h : keyLt a b = true) : a ≠ b := by
  intro he
  rw [he, keyLt_irrefl] at h
  cases h

theorem keyLt_le_fst {a b : Nat × Nat} (h : keyLt a b = true) : a.1 ≤ b.1 := by
  simp [keyLt] at h
  omega

theorem expSorted_keys_nodup {l : List ((Nat × Nat) × String)} (h : expSorted l) :
    (l.map Prod.fst).Nodup :=
  List.Pairwise.map Prod.fst (fun _ _ hab => keyLt_ne hab) h

theorem exp_key_unique {l : List ((Nat × Nat) × String)}
    (hnd : (l.map Prod.fst).Nodup) {q1 q2 : (Nat × Nat) × String}
    (h1 : q1 ∈ l) (h2 : q2 ∈ l) (he : q1.1 = q2.1) : q1 = q2 := by
  induction l with
  | nil => cases h1
  | cons r rest ih =>
    rw [List.map_cons, List.nodup_cons] at hnd
    rcases List.mem_cons.mp h1 with ha | ha <;> rcases List.mem_cons.mp h2 with hb | hb
    · rw [ha, hb]
    · exfalso
      apply hnd.1
      have h3 : q2.1 = r.1 := by rw [← he, ha]
      rw [← h3]
      exact List.mem_map_of_mem Prod.fst hb
    · exfalso
      apply hnd.1
      have h3 : q1.1 = r.1 := by rw [he, hb]
      rw [← h3]
      exact List.mem_map_of_mem Prod.fst ha
    · exact ih hnd.2 ha hb

theorem lookupEntry_mem : ∀ {es : List (String × EntryM)} {k : String} {e : EntryM},
    lookupEntry es k = some e → (k, e) ∈ es := by
  intro es
  induction es with
  | nil => intro k e h; cases h
  | cons p rest ih =>
    intro k e h
    rw [lookupEntry] at h
    by_cases he : p.1 = k
    · rw [if_pos he] at h
      cases h
      have h2 : (k, p.2) = p := by rw [← he]
      rw [h2]
      exact List.mem_cons_self p rest
    · rw [if_neg he] at h
      exact List.mem_cons_of_mem p (ih h)

theorem mem_lookupEntry : ∀ {es : List (String × EntryM)} {k : String} {e : EntryM},
    (es.map Prod.fst).Nodup → (k, e) ∈ es → lookupEntry es k = some e := by
  intro es
  induction es with
  | nil => intro k e _ h; cases h
  | cons p rest ih =>
    intro k e hnd hm
    rw [List.map_cons, List.nodup_cons] at hnd
    rw [lookupEntry]
    rcases List.mem_cons.mp hm with h1 | h1
    · rw [← h1]
      rw [if_pos rfl]
    · by_cases he : p.1 = k
      · exfalso
        exact hnd.1 (he ▸ List.mem_map_of_mem Prod.fst h1)
      · rw [if_neg he]
        exact ih hnd.2 h1

theorem entriesInsert_prev : ∀ (es : List (String × EntryM)) (k : String) (v : EntryM),
    (entriesInsert es k v).1 = lookupEntry es k := by
  intro es
  induction es with
  | nil => intro k v; rfl
  | cons p rest ih =>
    intro k v
    rw [entriesInsert, lookupEntry]
    by_cases he : p.1 = k
    · rw [if_pos he, if_pos he]
    · rw [if_neg he, if_neg he]
      exact ih k v

theorem entriesInsert_lookup_self : ∀ (es : List (String × EntryM)) (k : String) (v : EntryM),
    lookupEntry (entriesInsert es k v).2 k = some v := by
  intro es
  induction es with
  | nil => intro k v; simp [entriesInsert, lookupEntry]
  | cons p rest ih =>
    intro k v
    by_cases he : p.1 = k
    · have h2 : (entriesInsert (p :: rest) k v).2 = (k, v) :: rest := by
        rw [entriesInsert, if_pos he]
      rw [h2]
      simp [lookupEntry]
    · have h2 : (entriesInsert (p :: rest) k v).2 = p :: (entriesInsert rest k v).2 := by
        rw [entriesInsert, if_neg he]
      rw [h2, lookupEntry, if_neg he]
      exact ih k v

theorem entriesInsert_lookup_other : ∀ (es : List (String × EntryM)) (k k2 : String)
    (v : EntryM), k2 ≠ k → lookupEntry (entriesInsert es k v).2 k2 = lookupEntry es k2 := by
  intro es
  induction es with
  | nil =>
    intro k k2 v hne
    show lookupEntry [(k, v)] k2 = lookupEntry [] k2
    simp only [lookupEntry]
    rw [if_neg (fun h2 : k = k2 => hne h2.symm)]
  | cons p rest ih =>
    intro k k2 v hne
    by_cases he : p.1 = k
    · show lookupEntry (if p.1 = k then (some p.2, (k, v) :: rest)
        else ((entriesInsert rest k v).1, p :: (entriesInsert rest k v).2)).2 k2 =
          lookupEntry (p :: rest) k2
      rw [if_pos he]
      rw [lookupEntry, lookupEntry]
      rw [if_neg (fun h2 : k = k2 => hne h2.symm)]
      rw [if_neg (fun h2 : p.1 = k2 => hne (h2.symm.trans he))]
    · show lookupEntry (if p.1 = k then (some p.2, (k, v) :: rest)
        else ((entriesInsert rest k v).1, p :: (entriesInsert rest k v).2)).2 k2 =
          lookupEntry (p :: rest) k2
      rw [if_neg he]
      rw [lookupEntry, lookupEntry]
      by_cases h2 : p.1 = k2
      · rw [if_pos h2, if_pos h2]
      · rw [if_neg h2, if_neg h2]
        exact ih k k2 v hne

theorem entriesInsert_keys : ∀ (es : List (String × EntryM)) (k : String) (v : EntryM),
    ((entriesInsert es k v).2.map Prod.fst) =
      if k ∈ es.map Prod.fst then es.map Prod.fst else es.map Prod.fst ++ [k] := by
  intro es
  induction es with
  | nil => intro k v; simp [entriesInsert]
  | cons p rest ih =>
    intro k v
    by_cases he : p.1 = k
    · show ((if p.1 = k then (some p.2, (k, v) :: rest)
        else ((entriesInsert rest k v).1, p :: (entriesInsert rest k v).2)).2.map Prod.fst) = _
      rw [if_pos he]
      simp [he]
    · show ((if p.1 = k then (some p.2, (k, v) :: rest)
        else ((entriesInsert rest k v).1, p :: (entriesInsert rest k v).2)).2.map Prod.fst) = _
      rw [if_neg he]
      rw [List.map_cons, ih k v, List.map_cons]
      by_cases hm : k ∈ rest.map Prod.fst
      · rw [if_pos hm, if_pos (by simp [hm])]
      · rw [if_neg hm, if_neg (by
          simp only [List.mem_cons]
          rintro (h1 | h1)
          · exact he h1.symm
          · exact hm h1)]
        rfl

theorem entriesInsert_nodup {es : List (String × EntryM)} {k : String} {v : EntryM}
    (hnd : (es.map Prod.fst).Nodup) : ((entriesInsert es k v).2.map Prod.fst).Nodup := by
  rw [entriesInsert_keys]
  by_cases hm : k ∈ es.map Prod.fst
  · rw [if_pos hm]
    exact hnd
  · rw [if_neg hm]
    rw [List.nodup_append]
    refine ⟨hnd, List.nodup_singleton _, ?_⟩
    intro a ha
    rw [List.mem_singleton]
    intro hb
    exact hm (hb ▸ ha)

theorem entriesInsert_mem : ∀ {es : List (String × EntryM)} {k : String} {v : EntryM},
    (es.map Prod.fst).Nodup →
    ∀ p, p ∈ (entriesInsert es k v).2 ↔ (p = (k, v) ∨ (p ∈ es ∧ p.1 ≠ k)) := by
  intro es
  induction es with
  | nil =>
    intro k v _ p
    show p ∈ [(k, v)] ↔ _
    simp
  | cons q rest ih =>
    intro k v hnd p
    rw [List.map_cons, List.nodup_cons] at hnd
    by_cases he : q.1 = k
    · show p ∈ (if q.1 = k then (some q.2, (k, v) :: rest)
        else ((entriesInsert rest k v).1, q :: (entriesInsert rest k v).2)).2 ↔ _
      rw [if_pos he]
      rw [List.mem_cons, List.mem_cons]
      constructor
      · rintro (h1 | h1)
        · exact Or.inl h1
        · refine Or.inr ⟨Or.inr h1, ?_⟩
          intro hp
          exact hnd.1 (he ▸ hp ▸ List.mem_map_of_mem Prod.fst h1)
      · rintro (h1 | ⟨h1 | h1, h2⟩)
        · exact Or.inl h1
        · exact absurd (h1 ▸ he : p.1 = k) h2
        · exact Or.inr h1
    · show p ∈ (if q.1 = k then (some q.2, (k, v) :: rest)
        else ((entriesInsert rest k v).1, q :: (entriesInsert rest k v).2)).2 ↔ _
      rw [if_neg he]
      rw [List.mem_cons, ih hnd.2 p, List.mem_cons]
      constructor
      · rintro (h1 | h1 | ⟨h1, h2⟩)
        · refine Or.inr ⟨Or.inl h1, ?_⟩
          intro hp
          exact he (h1 ▸ hp)
        · exact Or.inl h1
        · exact Or.inr ⟨Or.inr h1, h2⟩
      · rintro (h1 | ⟨h1 | h1, h2⟩)
        · exact Or.inr (Or.inl h1)
        · exact Or.inl h1
        · exact Or.inr (Or.inr ⟨h1, h2⟩)

theorem mem_entriesRemove {es : List (String × EntryM)} {k : String} {p : String × EntryM} :
    p ∈ entriesRemove es k ↔ (p ∈ es ∧ p.1 ≠ k) := by
  rw [entriesRemove, List.mem_filter]
  simp [bne_iff_ne]

theorem entriesRemove_lookup_self (es : List (String × EntryM)) (k : String) :
    lookupEntry (entriesRemove es k) k = none := by
  induction es with
  | nil => rfl
  | cons p rest ih =>
    rw [entriesRemove, List.filter_cons]
    by_cases he : p.1 = k
    · rw [show (p.1 != k) = false by simp [he]]
      rw [if_neg Bool.false_ne_true]
      exact ih
    · rw [show (p.1 != k) = true by simp [he]]
      rw [if_pos rfl, lookupEntry, if_neg he]
      exact ih

theorem entriesRemove_lookup_other (es : List (String × EntryM)) (k k2 : String)
    (hne : k2 ≠ k) : lookupEntry (entriesRemove es k) k2 = lookupEntry es k2 := by
  induction es with
  | nil => rfl
  | cons p rest ih =>
    rw [entriesRemove, List.filter_cons]
    by_cases he : p.1 = k
    · rw [show (p.1 != k) = false by simp [he]]
      rw [if_neg Bool.false_ne_true]
      rw [lookupEntry, if_neg (fun h2 : p.1 = k2 => hne (h2 ▸ he ▸ rfl))]
      exact ih
    · rw [show (p.1 != k) = true by simp [he]]
      rw [if_pos rfl, lookupEntry, lookupEntry]
      by_cases h2 : p.1 = k2
      · rw [if_pos h2, if_pos h2]
      · rw [if_neg h2, if_neg h2]
        exact ih

theorem entriesRemove_nodup {es : List (String × EntryM)} {k : String}
    (hnd : (es.map Prod.fst).Nodup) : ((entriesRemove es k).map Prod.fst).Nodup :=
  hnd.sublist ((List.filter_sublist es).map Prod.fst)

theorem expInsert_mem : ∀ {l : List ((Nat × Nat) × String)} {key : Nat × Nat} {v : String},
    expSorted l →
    ∀ q, q ∈ expInsert l key v ↔ (q = (key, v) ∨ (q ∈ l ∧ q.1 ≠ key)) := by
  intro l
  induction l with
  | nil =>
    intro key v _ q
    show q ∈ [(key, v)] ↔ _
    simp
  | cons r rest ih =>
    intro key v hs q
    replace hs := List.pairwise_cons.mp hs
    rw [expInsert]
    by_cases h1 : keyLt key r.1 = true
    · rw [if_pos h1]
      rw [List.mem_cons, List.mem_cons]
      constructor
      · rintro (h2 | h2 | h2)
        · exact Or.inl h2
        · refine Or.inr ⟨Or.inl h2, ?_⟩
          intro hq
          exact keyLt_ne h1 (by rw [← hq, h2])
        · refine Or.inr ⟨Or.inr h2, ?_⟩
          intro hq
          have h4 := keyLt_trans h1 (hs.1 q h2)
          rw [hq] at h4
          rw [keyLt_irrefl] at h4
          cases h4
      · rintro (h2 | ⟨h2 | h2, h3⟩)
        · exact Or.inl h2
        · exact Or.inr (Or.inl h2)
        · exact Or.inr (Or.inr h2)
    · rw [if_neg h1]
      by_cases h2 : key = r.1
      · rw [if_pos h2]
        rw [List.mem_cons, List.mem_cons]
        constructor
        · rintro (h3 | h3)
          · exact Or.inl h3
          · refine Or.inr ⟨Or.inr h3, ?_⟩
            intro hq
            have h4 := hs.1 q h3
            rw [hq, ← h2] at h4
            rw [keyLt_irrefl] at h4
            cases h4
        · rintro (h3 | ⟨h3 | h3, h4⟩)
          · exact Or.inl h3
          · exact absurd (h3 ▸ h2.symm : q.1 = key) h4
          · exact Or.inr h3
      · rw [if_neg h2]
        rw [List.mem_cons, ih hs.2 q, List.mem_cons]
        constructor
        · rintro (h3 | h3 | ⟨h3, h4⟩)
          · refine Or.inr ⟨Or.inl h3, ?_⟩
            intro hq
            apply h2
            rw [← hq, h3]
          · exact Or.inl h3
          · exact Or.inr ⟨Or.inr h3, h4⟩
        · rintro (h3 | ⟨h3 | h3, h4⟩)
          · exact Or.inr (Or.inl h3)
          · exact Or.inl h3
          · exact Or.inr (Or.inr ⟨h3, h4⟩)

theorem expInsert_sorted : ∀ {l : List ((Nat × Nat) × String)} {key : Nat × Nat} {v : String},
    expSorted l → expSorted (expInsert l key v) := by
  intro l
  induction l with
  | nil => intro key v _; exact List.pairwise_singleton _ _
  | cons q rest ih =>
    intro key v hs
    replace hs := List.pairwise_cons.mp hs
    rw [expInsert]
    by_cases h1 : keyLt key q.1 = true
    · rw [if_pos h1]
      refine List.pairwise_cons.mpr ⟨?_, List.pairwise_cons.mpr hs⟩
      intro b hb
      rcases List.mem_cons.mp hb with h2 | h2
      · rw [h2]
        exact h1
      · exact keyLt_trans h1 (hs.1 b h2)
    · rw [if_neg h1]
      by_cases h2 : key = q.1
      · rw [if_pos h2]
        exact List.pairwise_cons.mpr ⟨fun b hb => h2 ▸ hs.1 b hb, hs.2⟩
      · rw [if_neg h2]
        have h3 : keyLt q.1 key = true := by
          rcases keyLt_cases key q.1 with hc | hc | hc
          · exact absurd hc h1
          · exact absurd hc h2
          · exact hc
        refine List.pairwise_cons.mpr ⟨?_, ih hs.2⟩
        intro b hb
        rcases (expInsert_mem hs.2 b).mp hb with h4 | h4
        · rw [h4]
          exact h3
        · exact hs.1 b h4.1

theorem mem_expRemove {l : List ((Nat × Nat) × String)} {key : Nat × Nat}
    {q : (Nat × Nat) × String} : q ∈ expRemove l key ↔ (q ∈ l ∧ q.1 ≠ key) := by
  rw [expRemove, List.mem_filter]
  simp [bne_iff_ne]

theorem expRemove_sorted {l : List ((Nat × Nat) × String)} {key : Nat × Nat}
    (hs : expSorted l) : expSorted (expRemove l key) :=
  hs.sublist (List.filter_sublist l)

theorem fwdCheck_iff (exps : List ((Nat × Nat) × String)) (p : String × EntryM) :
    fwdCheck exps p = true ↔ ∀ t, p.2.expiresAt = some t → ((t, p.2.id), p.1) ∈ exps := by
  cases he : p.2.expiresAt with
  | none => simp [fwdCheck, he]
  | some t => simp [fwdCheck, he]

theorem bwdCheck_iff (entries : List (String × EntryM)) (q : (Nat × Nat) × String) :
    bwdCheck entries q = true ↔ ∃ e, lookupEntry entries q.2 = some e ∧
      e.id = q.1.2 ∧ e.expiresAt = some q.1.1 := by
  cases hl : lookupEntry entries q.2 with
  | none => simp [bwdCheck, hl]
  | some e => simp [bwdCheck, hl]

/-- Core preservation argument shared by every `Db::set` configuration:
insert the fresh entry for `key` (id `s.nextId`, deadline `dl`) and move
to any expiration index `X` that contains the fresh mapping, keeps every
other live mapping, and holds no stale mapping for `key`. -/
theorem inv_core (s : StateM) (key : String) (value : List Nat) (dl : Option Nat)
    (X : List ((Nat × Nat) × String))
    (hnd : (s.entries.map Prod.fst).Nodup)
    (hfwdS : ∀ p ∈ s.entries, fwdCheck s.expirations p = true)
    (hbwd : ∀ q ∈ s.expirations, bwdCheck s.entries q = true)
    (hids : ∀ p ∈ s.entries, p.2.id < s.nextId)
    (hsortX : expSorted X)
    (hXnew : ∀ t, dl = some t → ((t, s.nextId), key) ∈ X)
    (hXold : ∀ q ∈ s.expirations, q.1.2 < s.nextId → q.2 ≠ key → q ∈ X)
    (hXkey : ∀ q ∈ X, q.2 = key → ∃ t, dl = some t ∧ q = ((t, s.nextId), key))
    (hXfrom : ∀ q ∈ X, (∃ t, dl = some t ∧ q = ((t, s.nextId), key)) ∨ q ∈ s.expirations) :
    Inv { entries := (entriesInsert s.entries key ⟨s.nextId, value, dl⟩).2,
          pubSub := s.pubSub, expirations := X, nextId := s.nextId + 1,
          shutdown := s.shutdown } := by
  refine ⟨entriesInsert_nodup hnd, hsortX, ?_, ?_, ?_⟩
  · intro p hp
    rw [fwdCheck_iff]
    intro t ht
    rcases (entriesInsert_mem hnd p).mp hp with h1 | ⟨h1, h2⟩
    · subst h1
      exact hXnew t ht
    · have h3 := (fwdCheck_iff s.expirations p).mp (hfwdS p h1) t ht
      exact hXold _ h3 (hids p h1) h2
  · intro q hq
    rw [bwdCheck_iff]
    by_cases hk : q.2 = key
    · obtain ⟨t, hdl, hqe⟩ := hXkey q hq hk
      subst hqe
      exact ⟨⟨s.nextId, value, dl⟩, entriesInsert_lookup_self s.entries key _, rfl, hdl⟩
    · rcases hXfrom q hq with ⟨t, _, hqe⟩ | h1
      · exact absurd (by rw [hqe]) hk
      · obtain ⟨e, he1, he2, he3⟩ := (bwdCheck_iff s.entries q).mp (hbwd q h1)
        refine ⟨e, ?_, he2, he3⟩
        rw [entriesInsert_lookup_other s.entries key q.2 _ hk]
        exact he1
  · intro p hp
    rcases (entriesInsert_mem hnd p).mp hp with h1 | ⟨h1, _⟩
    · rw [h1]
      exact Nat.lt_succ_self _
    · exact Nat.lt_succ_of_lt (hids p h1)

/-- `Db::set`'s state update preserves the invariant, for any expiration
index `exps1` standing for "`s.expirations` after the optional insert of
the fresh mapping" (the prior entry's stale mapping is then removed by
the common tail of `set`). -/
theorem inv_after_set (s : StateM) (key : String) (value : List Nat) (dl : Option Nat)
    (exps1 : List ((Nat × Nat) × String))
    (hnd : (s.entries.map Prod.fst).Nodup)
    (hsort : expSorted s.expirations)
    (hfwd : ∀ p ∈ s.entries, fwdCheck s.expirations p = true)
    (hbwd : ∀ q ∈ s.expirations, bwdCheck s.entries q = true)
    (hids : ∀ p ∈ s.entries, p.2.id < s.nextId)
    (hsort1 : expSorted exps1)
    (hnew : ∀ t, dl = some t → ((t, s.nextId), key) ∈ exps1)
    (hold : ∀ q ∈ s.expirations, q.1.2 < s.nextId → q ∈ exps1)
    (hfrom : ∀ q ∈ exps1,
      (∃ t, dl = some t ∧ q = ((t, s.nextId), key)) ∨ q ∈ s.expirations) :
    Inv { entries := (entriesInsert s.entries key ⟨s.nextId, value, dl⟩).2,
          pubSub := s.pubSub,
          expirations :=
            (match (entriesInsert s.entries key ⟨s.nextId, value, dl⟩).1 with
             | some prev =>
               (match prev.expiresAt with
                | some pw => expRemove exps1 (pw, prev.id)
                | none => exps1)
             | none => exps1),
          nextId := s.nextId + 1,
          shutdown := s.shutdown } := by
  rw [entriesInsert_prev]
  cases hprev : lookupEntry s.entries key with
  | none =>
    dsimp only
    refine inv_core s key value dl exps1 hnd hfwd hbwd hids hsort1 hnew
      (fun q hq hlt _ => hold q hq hlt) ?_ hfrom
    intro q hq hk
    rcases hfrom q hq with h1 | h1
    · exact h1
    · exfalso
      obtain ⟨e, he1, _, _⟩ := (bwdCheck_iff s.entries q).mp (hbwd q h1)
      rw [hk, hprev] at he1
      cases he1
  | some pe =>
    have hpemem : (key, pe) ∈ s.entries := lookupEntry_mem hprev
    have hpeid : pe.id < s.nextId := hids (key, pe) hpemem
    cases hpe : pe.expiresAt with
    | none =>
      dsimp only
      rw [hpe]
      dsimp only
      refine inv_core s key value dl exps1 hnd hfwd hbwd hids hsort1 hnew
        (fun q hq hlt _ => hold q hq hlt) ?_ hfrom
      intro q hq hk
      rcases hfrom q hq with h1 | h1
      · exact h1
      · exfalso
        obtain ⟨e, he1, _, he3⟩ := (bwdCheck_iff s.entries q).mp (hbwd q h1)
        rw [hk, hprev] at he1
        cases he1
        rw [hpe] at he3
        cases he3
    | some pw =>
      dsimp only
      rw [hpe]
      dsimp only
      have hpw : ((pw, pe.id), key) ∈ s.expirations :=
        (fwdCheck_iff s.expirations (key, pe)).mp (hfwd (key, pe) hpemem) pw hpe
      refine inv_core s key value dl (expRemove exps1 (pw, pe.id)) hnd hfwd hbwd hids
        (expRemove_sorted hsort1) ?_ ?_ ?_ ?_
      · intro t ht
        refine mem_expRemove.mpr ⟨hnew t ht, ?_⟩
        intro he
        have : s.nextId = pe.id := congrArg Prod.snd he
        omega
      · intro q hq hlt hk2
        refine mem_expRemove.mpr ⟨hold q hq hlt, ?_⟩
        intro he
        have hqq := exp_key_unique (expSorted_keys_nodup hsort) hq hpw he
        exact hk2 (congrArg Prod.snd hqq)
      · intro q hq hk
        obtain ⟨hq1, hne⟩ := mem_expRemove.mp hq
        rcases hfrom q hq1 with h1 | h1
        · exact h1
        · exfalso
          obtain ⟨e, he1, he2, he3⟩ := (bwdCheck_iff s.entries q).mp (hbwd q h1)
          rw [hk, hprev] at he1
          cases he1
          rw [hpe] at he3
          apply hne
          have h4 : q.1.1 = pw := by
            injection he3 with h5
            exact h5.symm
          have h5 : q.1.2 = pe.id := he2.symm
          rw [Prod.ext_iff]
          exact ⟨h4, h5⟩
      · intro q hq
        exact hfrom q (mem_expRemove.mp hq).1

/-- `Db::set` preserves the state invariant whenever it completes
(returns without panicking). -/
theorem dbSet_preserves_inv {s : StateM} {key : String} {value : List Nat}
    {expire : Option Nat} {now : Nat} {s2 : StateM} {b : Bool}
    (hInv : Inv s) (h : dbSet s key value expire now = some (s2, b)) : Inv s2 := by
  obtain ⟨hnd, hsort, hfwd, hbwd, hids⟩ := hInv
  unfold dbSet at h
  cases expire with
  | none =>
    dsimp only at h
    rw [Option.some.injEq, Prod.mk.injEq] at h
    obtain ⟨h1, _⟩ := h
    rw [← h1]
    exact inv_after_set s key value none s.expirations hnd hsort hfwd hbwd hids hsort
      (fun t ht => by cases ht) (fun q hq _ => hq) (fun q hq => Or.inr hq)
  | some d =>
    dsimp only at h
    cases hm : nextExpiration s.expirations with
    | none =>
      rw [hm] at h
      dsimp only at h
      cases h
    | some m =>
      rw [hm] at h
      dsimp only at h
      rw [Option.some.injEq, Prod.mk.injEq] at h
      obtain ⟨h1, _⟩ := h
      rw [← h1]
      refine inv_after_set s key value (some (now + d))
        (expInsert s.expirations (now + d, s.nextId) key) hnd hsort hfwd hbwd hids
        (expInsert_sorted hsort) ?_ ?_ ?_
      · intro t ht
        cases ht
        exact (expInsert_mem hsort _).mpr (Or.inl rfl)
      · intro q hq hlt
        refine (expInsert_mem hsort q).mpr (Or.inr ⟨hq, ?_⟩)
        intro he
        have : q.1.2 = s.nextId := congrArg Prod.snd he
        omega
      · intro q hq
        rcases (expInsert_mem hsort q).mp hq with h2 | h2
        · exact Or.inl ⟨now + d, rfl, h2⟩
        · exact Or.inr h2.1

/-- One iteration of the purge loop (deadline `w ≤ now`): removing the
minimum mapping and its entry preserves all the component invariants. -/
theorem purgeStep (entries : List (String × EntryM)) (rest : List ((Nat × Nat) × String))
    (w i : Nat) (k : String) (N : Nat)
    (hnd : (entries.map Prod.fst).Nodup)
    (hsort : expSorted (((w, i), k) :: rest))
    (hfwd : ∀ p ∈ entries, fwdCheck (((w, i), k) :: rest) p = true)
    (hbwd : ∀ q ∈ ((w, i), k) :: rest, bwdCheck entries q = true)
    (hids : ∀ p ∈ entries, p.2.id < N) :
    ((entriesRemove entries k).map Prod.fst).Nodup ∧
    expSorted rest ∧
    (∀ p ∈ entriesRemove entries k, fwdCheck rest p = true) ∧
    (∀ q ∈ rest, bwdCheck (entriesRemove entries k) q = true) ∧
    (∀ p ∈ entriesRemove entries k, p.2.id < N) := by
  have hs := List.pairwise_cons.mp hsort
  refine ⟨entriesRemove_nodup hnd, hs.2, ?_, ?_, ?_⟩
  · intro p hp
    obtain ⟨hp1, hp2⟩ := mem_entriesRemove.mp hp
    rw [fwdCheck_iff]
    intro t ht
    have h3 := (fwdCheck_iff _ p).mp (hfwd p hp1) t ht
    rcases List.mem_cons.mp h3 with h4 | h4
    · exact absurd (congrArg Prod.snd h4) hp2
    · exact h4
  · intro q hq
    obtain ⟨e, he1, he2, he3⟩ := (bwdCheck_iff entries q).mp (hbwd q (List.mem_cons_of_mem _ hq))
    rw [bwdCheck_iff]
    have hk2 : q.2 ≠ k := by
      intro he
      obtain ⟨eh, hh1, hh2, hh3⟩ := (bwdCheck_iff entries ((w, i), k)).mp
        (hbwd ((w, i), k) (List.mem_cons_self _ _))
      have hh1b : lookupEntry entries k = some eh := hh1
      rw [he, hh1b] at he1
      have h4 : eh = e := by injection he1
      have h5 : q.1.1 = w := by
        rw [← h4] at he3
        rw [hh3] at he3
        injection he3 with h6
        exact h6.symm
      have h6 : q.1.2 = i := by
        rw [← h4] at he2
        rw [← he2]
        exact hh2
      have h7 := hs.1 q hq
      rw [show q.1 = (w, i) from Prod.ext_iff.mpr ⟨h5, h6⟩] at h7
      rw [keyLt_irrefl] at h7
      cases h7
    refine ⟨e, ?_, he2, he3⟩
    rw [entriesRemove_lookup_other entries k q.2 hk2]
    exact he1
  · intro p hp
    exact hids p (mem_entriesRemove.mp hp).1

/-- Full characterisation of the purge loop, proved together with the
invariants it maintains: the surviving mappings are exactly those with
deadline `> now`; an entry survives (unchanged) iff its deadline is not
`≤ now`; the returned instant is the head (minimum) of the surviving
index. -/
theorem purgeLoop_main : ∀ (exps : List ((Nat × Nat) × String))
    (entries : List (String × EntryM)) (now N : Nat),
    (entries.map Prod.fst).Nodup → expSorted exps →
    (∀ p ∈ entries, fwdCheck exps p = true) →
    (∀ q ∈ exps, bwdCheck entries q = true) →
    (∀ p ∈ entries, p.2.id < N) →
    ((purgeLoop exps entries now).1 = exps.filter (fun q => decide (now < q.1.1)) ∧
     (∀ k, lookupEntry (purgeLoop exps entries now).2.1 k =
        liveAfter now (lookupEntry entries k)) ∧
     (purgeLoop exps entries now).2.2 =
        ((purgeLoop exps entries now).1.head?).map (fun q => q.1.1) ∧
     (((purgeLoop exps entries now).2.1.map Prod.fst).Nodup ∧
      expSorted (purgeLoop exps entries now).1 ∧
      (∀ p ∈ (purgeLoop exps entries now).2.1,
        fwdCheck (purgeLoop exps entries now).1 p = true) ∧
      (∀ q ∈ (purgeLoop exps entries now).1,
        bwdCheck (purgeLoop exps entries now).2.1 q = true) ∧
      (∀ p ∈ (purgeLoop exps entries now).2.1, p.2.id < N))) := by
  intro exps
  induction exps with
  | nil =>
    intro entries now N hnd hsort hfwd hbwd hids
    refine ⟨rfl, ?_, rfl, hnd, hsort, hfwd, hbwd, hids⟩
    intro k
    show lookupEntry entries k = liveAfter now (lookupEntry entries k)
    cases hl : lookupEntry entries k with
    | none => rfl
    | some e =>
      cases he : e.expiresAt with
      | none => simp [liveAfter, he]
      | some t =>
        exfalso
        have h3 := (fwdCheck_iff [] (k, e)).mp (hfwd (k, e) (lookupEntry_mem hl)) t he
        cases h3
  | cons hd rest ih =>
    obtain ⟨⟨w, i⟩, k⟩ := hd
    intro entries now N hnd hsort hfwd hbwd hids
    have hs := List.pairwise_cons.mp hsort
    by_cases hnow : now < w
    · simp only [purgeLoop, if_pos hnow]
      refine ⟨?_, ?_, rfl, hnd, hsort, hfwd, hbwd, hids⟩
      · rw [List.filter_cons]
        rw [show decide (now < ((w, i), k).1.1) = true by simp [hnow]]
        rw [if_pos rfl]
        rw [List.filter_eq_self.mpr]
        intro q hq
        have h2 : w ≤ q.1.1 := keyLt_le_fst (hs.1 q hq)
        simp only [decide_eq_true_eq]
        omega
      · intro k2
        cases hl : lookupEntry entries k2 with
        | none => rfl
        | some e =>
          cases he : e.expiresAt with
          | none => simp [liveAfter, he]
          | some t =>
            have h3 := (fwdCheck_iff _ (k2, e)).mp (hfwd (k2, e) (lookupEntry_mem hl)) t he
            have h4 : now < t := by
              rcases List.mem_cons.mp h3 with h5 | h5
              · have h6 : t = w := congrArg (fun q => q.1.1) h5
                omega
              · have h6 := keyLt_le_fst (hs.1 _ h5)
                simp only at h6
                omega
            simp [liveAfter, he]
            omega
    · simp only [purgeLoop, if_neg hnow]
      obtain ⟨hnd2, hsort2, hfwd2, hbwd2, hids2⟩ :=
        purgeStep entries rest w i k N hnd hsort hfwd hbwd hids
      obtain ⟨ih1, ih2, ih3, ih4⟩ :=
        ih (entriesRemove entries k) now N hnd2 hsort2 hfwd2 hbwd2 hids2
      refine ⟨?_, ?_, ih3, ih4⟩
      · rw [ih1, List.filter_cons]
        rw [show decide (now < ((w, i), k).1.1) = false by simp; omega]
        rw [if_neg Bool.false_ne_true]
      · intro k2
        rw [ih2 k2]
        by_cases hk : k2 = k
        · subst hk
          rw [entriesRemove_lookup_self]
          obtain ⟨eh, hh1, hh2, hh3⟩ := (bwdCheck_iff entries ((w, i), k2)).mp
            (hbwd ((w, i), k2) (List.mem_cons_self _ _))
          have hh1b : lookupEntry entries k2 = some eh := hh1
          rw [hh1b]
          have hh3b : eh.expiresAt = some w := hh3
          simp only [liveAfter, hh3b]
          rw [if_pos (by omega : w ≤ now)]
        · rw [entriesRemove_lookup_other entries k k2 hk]

/-- C4: every store operation — `set` (whenever it completes), `get`,
`subscribe`, `publish`, a single purge pass, and `shutdown_purge_task` —
preserves the state invariant `Inv`, whose clauses `fwdCheck` (every
entry with `expires_at = Some(t)` owns exactly one `(t, id) → key`
mapping: it is a member of the index, whose strict sortedness makes it
unique) and `bwdCheck` (every mapping points back at an entry with that
id and deadline) are the two clauses of the claim; `Inv` also carries
the spec's companion invariants (unique keys, sorted index, ids below
`next_id`) that the preservation induction needs. -/
theorem claim_C4_invariant_preserved :
    (∀ (s : StateM) (key : String) (value : List Nat) (expire : Option Nat) (now : Nat)
      (s2 : StateM) (b : Bool),
      Inv s → dbSet s key value expire now = some (s2, b) → Inv s2) ∧
    (∀ (s : StateM) (key : String), Inv s → Inv (dbGet s key).2) ∧
    (∀ (s : StateM) (ch : String), Inv s → Inv (dbSubscribe s ch)) ∧
    (∀ (s : StateM) (ch : String) (v : List Nat), Inv s → Inv (dbPublish s ch v)) ∧
    (∀ (s : StateM) (now : Nat), Inv s → Inv (purgeExpiredKeys s now).1) ∧
    (∀ s : StateM, Inv s → Inv (shutdownPurgeTask s)) := by
  refine ⟨fun s key value expire now s2 b hInv h => dbSet_preserves_inv hInv h,
    fun s key hInv => hInv, ?_, fun s ch v hInv => hInv, ?_, fun s hInv => hInv⟩
  · intro s ch hInv
    unfold dbSubscribe
    split
    · exact hInv
    · exact hInv
  · intro s now hInv
    obtain ⟨hnd, hsort, hfwd, hbwd, hids⟩ := hInv
    unfold purgeExpiredKeys
    split
    · exact ⟨hnd, hsort, hfwd, hbwd, hids⟩
    · obtain ⟨_, _, _, h4⟩ :=
        purgeLoop_main s.expirations s.entries now s.nextId hnd hsort hfwd hbwd hids
      exact ⟨h4.1, h4.2.1, h4.2.2.1, h4.2.2.2.1, h4.2.2.2.2⟩

/-- Witness for C4 at the concrete store `stC1`: a completing
`set("b", [2], Some 3)` preserves the invariant. -/
theorem claim_C4_witness :
    Inv stC1 ∧
    dbSet stC1 "b" [2] (some 3) 0 =
      some ({ entries := [("a", { id := 0, data := [9], expiresAt := some 5 }),
                          ("b", { id := 1, data := [2], expiresAt := some 3 })],
              pubSub := [], expirations := [((3, 1), "b"), ((5, 0), "a")],
              nextId := 2, shutdown := false }, true) ∧
    Inv { entries := [("a", { id := 0, data := [9], expiresAt := some 5 }),
                      ("b", { id := 1, data := [2], expiresAt := some 3 })],
          pubSub := [], expirations := [((3, 1), "b"), ((5, 0), "a")],
          nextId := 2, shutdown := false } :=
  ⟨by decide, by decide,
    claim_C4_invariant_preserved.1 stC1 "b" [2] (some 3) 0 _ true (by decide) (by decide)⟩

/-- C5: a single `purge_expired_keys` pass with `shutdown = false`
removes exactly the mappings (and their entries) whose deadline is
`≤ now`, taking minima in `(deadline, id)` order off the head of the
sorted index; every other entry, `pub_sub`, `next_id` and the shutdown
flag are unchanged; and it returns `Some(w)` with `w` the smallest
remaining deadline (which is `> now`), or `None` when no deadline
remains. -/
theorem claim_C5_purge_pass (s : StateM) (now : Nat) (hInv : Inv s)
    (hsd : s.shutdown = false) :
    (purgeExpiredKeys s now).1.expirations =
      s.expirations.filter (fun q => decide (now < q.1.1)) ∧
    (∀ k, lookupEntry (purgeExpiredKeys s now).1.entries k =
      liveAfter now (lookupEntry s.entries k)) ∧
    (purgeExpiredKeys s now).1.pubSub = s.pubSub ∧
    (purgeExpiredKeys s now).1.nextId = s.nextId ∧
    (purgeExpiredKeys s now).1.shutdown = s.shutdown ∧
    (purgeExpiredKeys s now).2 =
      ((purgeExpiredKeys s now).1.expirations.head?).map (fun q => q.1.1) ∧
    (∀ w, (purgeExpiredKeys s now).2 = some w →
      now < w ∧ ∀ q ∈ (purgeExpiredKeys s now).1.expirations, w ≤ q.1.1) ∧
    ((purgeExpiredKeys s now).2 = none ↔
      (purgeExpiredKeys s now).1.expirations = []) := by
  obtain ⟨hnd, hsort, hfwd, hbwd, hids⟩ := hInv
  obtain ⟨h1, h2, h3, h4⟩ :=
    purgeLoop_main s.expirations s.entries now s.nextId hnd hsort hfwd hbwd hids
  have hps : purgeExpiredKeys s now =
      ({ s with expirations := (purgeLoop s.expirations s.entries now).1,
                entries := (purgeLoop s.expirations s.entries now).2.1 },
       (purgeLoop s.expirations s.entries now).2.2) := by
    unfold purgeExpiredKeys
    rw [if_neg (by rw [hsd]; exact Bool.false_ne_true)]
  rw [hps]
  dsimp only
  refine ⟨h1, h2, rfl, rfl, rfl, h3, ?_, ?_⟩
  · intro w hw
    rw [h3] at hw
    cases hh : (purgeLoop s.expirations s.entries now).1.head? with
    | none => rw [hh] at hw; cases hw
    | some q0 =>
      rw [hh] at hw
      rw [Option.map_some'] at hw
      injection hw with hw2
      constructor
      · have hq0 : q0 ∈ (purgeLoop s.expirations s.entries now).1 :=
          List.mem_of_mem_head? hh
        rw [h1] at hq0
        have h5 := (List.mem_filter.mp hq0).2
        rw [← hw2]
        simpa using h5
      · intro q hq
        have hsrt := h4.2.1
        cases hl : (purgeLoop s.expirations s.entries now).1 with
        | nil => rw [hl] at hq; cases hq
        | cons a tail =>
          rw [hl] at hh hq hsrt
          rw [List.head?_cons] at hh
          injection hh with hh2
          rcases List.mem_cons.mp hq with h5 | h5
          · rw [h5, ← hw2, ← hh2]
          · have h6 := keyLt_le_fst ((List.pairwise_cons.mp hsrt).1 q h5)
            rw [← hw2, ← hh2]
            exact h6
  · rw [h3]
    cases (purgeLoop s.expirations s.entries now).1 with
    | nil => simp
    | cons a tail => simp

/-- Witness for C5: purging the two-entry store at `now = 7` removes the
deadline-5 entry, keeps the deadline-10 one, and wakes at 10. -/
theorem claim_C5_witness :
    Inv { entries := [("a", { id := 0, data := [], expiresAt := some 5 }),
                      ("b", { id := 1, data := [], expiresAt := some 10 })],
          pubSub := ["ch"], expirations := [((5, 0), "a"), ((10, 1), "b")],
          nextId := 2, shutdown := false } ∧
    (purgeExpiredKeys { entries := [("a", { id := 0, data := [], expiresAt := some 5 }),
                                    ("b", { id := 1, data := [], expiresAt := some 10 })],
                        pubSub := ["ch"], expirations := [((5, 0), "a"), ((10, 1), "b")],
                        nextId := 2, shutdown := false } 7).1.expirations =
      [((5, 0), "a"), ((10, 1), "b")].filter (fun q => decide (7 < q.1.1)) :=
  ⟨by decide,
    (claim_C5_purge_pass
      { entries := [("a", { id := 0, data := [], expiresAt := some 5 }),
                    ("b", { id := 1, data := [], expiresAt := some 10 })],
        pubSub := ["ch"], expirations := [((5, 0), "a"), ((10, 1), "b")],
        nextId := 2, shutdown := false } 7 (by decide) rfl).1⟩

end MiniRedis
